/-
Verification of the Julia the Viper core (packages/jtv-lang and crates/jtv-core).

Shallow embedding conventions:
* Rust `i64` is modeled as `Int` together with the explicit range check
  `fitsI64` wherever the source uses `checked_add`, and the release-mode
  wrapping `wrap64` where the source negates with plain `-`.
* Rust `f64` payloads (`Value::Float`, the components of `Complex64`) are
  idealized as exact rationals (`Rat`); IEEE-754 rounding is not modeled.
* `num_rational::Ratio<i64>` is modeled as `Rat` (`Ratio::new` normalizes,
  as `mkRat` does); overflow of the `i64` components inside rational
  arithmetic is not modeled.
* `HashMap<String, V>` is modeled as an association list with shadowing
  insert (cons) and first-match lookup, which is observationally the map
  interface the source uses (`insert`/`get`).
* Error message strings built with `format!` interpolation of Debug payloads
  are abbreviated to fixed texts; no theorem below depends on message text.
-/
import Mathlib

namespace Jtv

/-- Error taxonomy from crates/jtv-core/src/error.rs (`JtvError`). -/
inductive JtvError where
  | parseError (msg : String)
  | typeError (msg : String)
  | runtimeError (msg : String)
  | purityViolation (msg : String)
  | totalityViolation (msg : String)
  | undefinedVariable (name : String)
  | undefinedFunction (name : String)
  | arityMismatch (expected got : Nat)
  | divisionByZero
  | integerOverflow
  | invalidOperation (msg : String)
  | injectionAttempt (msg : String)
  | maxIterationsExceeded
  | ioError (msg : String)
deriving DecidableEq, Repr

/-- Result type alias from error.rs (`pub type Result<T> = std::result::Result<T, JtvError>`). -/
abbrev JResult (α : Type) := Except JtvError α

/-- Smallest value of a Rust `i64`. -/
def i64Min : Int := -(2 ^ 63)

/-- Largest value of a Rust `i64`. -/
def i64Max : Int := 2 ^ 63 - 1

/-- Whether an integer is representable as an `i64`. -/
def fitsI64 (n : Int) : Bool := i64Min ≤ n && n ≤ i64Max

/-- Two's-complement wrap-around to the `i64` range (release-mode semantics of
Rust integer negation overflow). -/
def wrap64 (n : Int) : Int := (n + 2 ^ 63) % 2 ^ 64 - 2 ^ 63

/-- Model of `i64::checked_add`. -/
def checkedAdd (a b : Int) : Option Int :=
  if fitsI64 (a + b) then some (a + b) else none

/-- Model of `num_complex::Complex64` with the two `f64` components idealized
as exact rationals. -/
structure Complex64 where
  re : Rat
  im : Rat
deriving DecidableEq, Repr

/-- Complex addition (componentwise, exact in this idealization). -/
def Complex64.add (a b : Complex64) : Complex64 := ⟨a.re + b.re, a.im + b.im⟩

/-- Complex negation. -/
def Complex64.neg (a : Complex64) : Complex64 := ⟨-a.re, -a.im⟩

/-- AST number literals from ast.rs (`Number`).  `Float`/`Complex` payloads are
idealized rationals, `Rational` carries numerator and denominator as `i64`. -/
inductive Number where
  | int (n : Int)
  | float (x : Rat)
  | rational (num den : Int)
  | complex (re im : Rat)
  | hex (s : String)
  | binary (s : String)
  | symbolic (s : String)
deriving DecidableEq, Repr

/-- Runtime values from number.rs (`Value`). -/
inductive Value where
  | int (n : Int)
  | float (x : Rat)
  | rational (q : Rat)
  | complex (z : Complex64)
  | hex (n : Int)
  | binary (n : Int)
  | symbolic (s : String)
  | bool (b : Bool)
  | string (s : String)
  | list (vs : List Value)
  | tuple (vs : List Value)
  | unit
deriving Repr

mutual

/-- Structural boolean equality on values, mirroring the derived `PartialEq`
on `Value` (the nested lists force a hand-written instance in Lean).  Under
the `f64`-as-`Rat` idealization this is exact structural equality. -/
def Value.beq : Value → Value → Bool
  | .int a, .int b => a == b
  | .float a, .float b => a == b
  | .rational a, .rational b => a == b
  | .complex a, .complex b => a == b
  | .hex a, .hex b => a == b
  | .binary a, .binary b => a == b
  | .symbolic a, .symbolic b => a == b
  | .bool a, .bool b => a == b
  | .string a, .string b => a == b
  | .list a, .list b => Value.beqList a b
  | .tuple a, .tuple b => Value.beqList a b
  | .unit, .unit => true
  | _, _ => false

def Value.beqList : List Value → List Value → Bool
  | [], [] => true
  | a :: as, b :: bs => Value.beq a b && Value.beqList as bs
  | _, _ => false

end

namespace Value

/-- Model of `Value::add` from number.rs lines 27-60: the match arms in source
order, ending in the catch-all `TypeError`.  (The `format!` texts interpolating
Debug renderings of the operands are abbreviated.) -/
def add (a b : Value) : JResult Value :=
  match a, b with
  | .int x, .int y =>
      match checkedAdd x y with
      | some n => .ok (.int n)
      | none => .error .integerOverflow
  | .float x, .float y => .ok (.float (x + y))
  | .rational x, .rational y => .ok (.rational (x + y))
  | .complex x, .complex y => .ok (.complex (x.add y))
  | .hex x, .hex y =>
      match checkedAdd x y with
      | some n => .ok (.hex n)
      | none => .error .integerOverflow
  | .binary x, .binary y =>
      match checkedAdd x y with
      | some n => .ok (.binary n)
      | none => .error .integerOverflow
  | .symbolic x, .symbolic y => .ok (.symbolic (x ++ " + " ++ y))
  | .string x, .string y => .ok (.string (x ++ y))
  -- Type coercion arms
  | .int x, .float y => .ok (.float (x + y))
  | .float x, .int y => .ok (.float (x + y))
  | .int x, .rational y => .ok (.rational (x + y))
  | .rational x, .int y => .ok (.rational (x + y))
  | .float x, .complex y => .ok (.complex (Complex64.add ⟨x, 0⟩ y))
  | .complex x, .float y => .ok (.complex (x.add ⟨y, 0⟩))
  | _, _ => .error (.typeError "Cannot add these values")

/-- Model of `Value::negate` from number.rs lines 63-74.  Rust negates the
`i64` payloads with plain `-`, which wraps in release mode, hence `wrap64`. -/
def negate (a : Value) : JResult Value :=
  match a with
  | .int n => .ok (.int (wrap64 (-n)))
  | .float x => .ok (.float (-x))
  | .rational q => .ok (.rational (-q))
  | .complex z => .ok (.complex z.neg)
  | .hex n => .ok (.hex (wrap64 (-n)))
  | .binary n => .ok (.binary (wrap64 (-n)))
  | .symbolic s => .ok (.symbolic ("-(" ++ s ++ ")"))
  | _ => .error (.typeError "Cannot negate this value")

/-- Model of `Value::eq` (Rust `self == other` via the derived `PartialEq`). -/
def eqOp (a b : Value) : JResult Bool := .ok (Value.beq a b)

/-- Model of `Value::ne`. -/
def neOp (a b : Value) : JResult Bool := .ok (! Value.beq a b)

/-- Model of `Value::lt`. -/
def ltOp (a b : Value) : JResult Bool :=
  match a, b with
  | .int x, .int y => .ok (x < y)
  | .float x, .float y => .ok (x < y)
  | .rational x, .rational y => .ok (x < y)
  | _, _ => .error (.typeError "Cannot compare these values")

/-- Model of `Value::le`. -/
def leOp (a b : Value) : JResult Bool :=
  match a, b with
  | .int x, .int y => .ok (x ≤ y)
  | .float x, .float y => .ok (x ≤ y)
  | .rational x, .rational y => .ok (x ≤ y)
  | _, _ => .error (.typeError "Cannot compare these values")

/-- Model of `Value::gt`. -/
def gtOp (a b : Value) : JResult Bool :=
  match a, b with
  | .int x, .int y => .ok (x > y)
  | .float x, .float y => .ok (x > y)
  | .rational x, .rational y => .ok (x > y)
  | _, _ => .error (.typeError "Cannot compare these values")

/-- Model of `Value::ge`. -/
def geOp (a b : Value) : JResult Bool :=
  match a, b with
  | .int x, .int y => .ok (x ≥ y)
  | .float x, .float y => .ok (x ≥ y)
  | .rational x, .rational y => .ok (x ≥ y)
  | _, _ => .error (.typeError "Cannot compare these values")

/-- Model of `Value::is_truthy`. -/
def isTruthy (a : Value) : Bool :=
  match a with
  | .bool b => b
  | .int n => n != 0
  | .float x => x != 0
  | .rational q => q != 0
  | .string s => ! s.isEmpty
  | .list l => ! l.isEmpty
  | .unit => false
  | _ => true

end Value

/-- Model of `str::trim_start_matches("0x")`: strips every leading `0x`. -/
def trimHexMarks : List Char → List Char
  | '0' :: 'x' :: rest => trimHexMarks rest
  | s => s

/-- Model of `str::trim_start_matches("0b")`: strips every leading `0b`. -/
def trimBinMarks : List Char → List Char
  | '0' :: 'b' :: rest => trimBinMarks rest
  | s => s

/-- Digit value of a character in the given radix, as `i64::from_str_radix`
accepts it (0-9, a-z, A-Z up to the radix). -/
def digitVal (radix : Nat) (c : Char) : Option Nat :=
  let v :=
    if '0' ≤ c ∧ c ≤ '9' then some (c.toNat - '0'.toNat)
    else if 'a' ≤ c ∧ c ≤ 'z' then some (c.toNat - 'a'.toNat + 10)
    else if 'A' ≤ c ∧ c ≤ 'Z' then some (c.toNat - 'A'.toNat + 10)
    else none
  match v with
  | some d => if d < radix then some d else none
  | none => none

/-- Accumulating digit parse for `parseRadix`. -/
def parseDigits (radix : Nat) : List Char → Nat → Option Nat
  | [], acc => some acc
  | c :: rest, acc =>
    match digitVal radix c with
    | some d => parseDigits radix rest (acc * radix + d)
    | none => none

/-- Model of `i64::from_str_radix`: optional sign, at least one digit, and the
result must fit in `i64` (otherwise the source returns a parse error). -/
def parseRadix (radix : Nat) (s : List Char) : Option Int :=
  let (sign, digits) :=
    match s with
    | '+' :: rest => ((1 : Int), rest)
    | '-' :: rest => ((-1 : Int), rest)
    | rest => ((1 : Int), rest)
  match digits with
  | [] => none
  | _ =>
    match parseDigits radix digits 0 with
    | some n => if fitsI64 (sign * (n : Int)) then some (sign * (n : Int)) else none
    | none => none

/-- Model of `Ratio::<i64>::new`: reduce and carry the sign on the numerator
(`mkRat` takes a natural denominator, so the sign is normalized explicitly). -/
def ratioNew (num den : Int) : Rat :=
  if den < 0 then mkRat (-num) (-den).toNat else mkRat num den.toNat

/-- Model of `Value::from_number` from number.rs lines 134-160. -/
def Value.fromNumber (num : Number) : JResult Value :=
  match num with
  | .int n => .ok (.int n)
  | .float x => .ok (.float x)
  | .rational num den =>
      if den = 0 then .error .divisionByZero
      else .ok (.rational (ratioNew num den))
  | .complex re im => .ok (.complex ⟨re, im⟩)
  | .hex s =>
      match parseRadix 16 (trimHexMarks s.toList) with
      | some n => .ok (.hex n)
      | none => .error (.parseError "Invalid hex")
  | .binary s =>
      match parseRadix 2 (trimBinMarks s.toList) with
      | some n => .ok (.binary n)
      | none => .error (.parseError "Invalid binary")
  | .symbolic s => .ok (.symbolic s)

/-! AST from packages/jtv-lang/src/ast.rs.  The jtv-core crate re-declares the
same AST (its ast.rs is not present in the source tree); the only member used
below that jtv-lang lacks is `FunctionCall::qualified_name`, modeled from the
spec next to the purity checker.  Names follow the source except where Lean
reserves the word (`Return` → `ret`, the range field `end` → `stop`) and
`TypeAnnotation` → `TypeAnn`. -/

/-- Basic type names from ast.rs (`BasicType`). -/
inductive BasicType where
  | int | float | rational | complex | hex | binary | symbolic | bool | string
deriving DecidableEq, Repr

/-- Type annotations from ast.rs (source name `TypeAnnotation`). -/
inductive TypeAnn where
  | basic (b : BasicType)
  | list (t : TypeAnn)
  | tuple (ts : List TypeAnn)
  | func (params : List TypeAnn) (ret : TypeAnn)

/-- Comparison operators from ast.rs (`Comparator`). -/
inductive Comparator where
  | eq | ne | lt | le | gt | ge
deriving DecidableEq, Repr

/-- Logical operators from ast.rs (`LogicalOp`). -/
inductive LogicalOp where
  | and | or
deriving DecidableEq, Repr

mutual

/-- Data-language expressions from ast.rs (`DataExpr`). -/
inductive DataExpr where
  | number (n : Number)
  | identifier (name : String)
  | add (left right : DataExpr)
  | negate (inner : DataExpr)
  | functionCall (call : FunctionCall)
  | list (elems : List DataExpr)
  | tuple (elems : List DataExpr)

/-- Function call expression from ast.rs (`FunctionCall`): name and arguments. -/
inductive FunctionCall where
  | mk (name : String) (args : List DataExpr)

end

/-- Name of a function call. -/
def FunctionCall.name : FunctionCall → String
  | .mk n _ => n

/-- Arguments of a function call. -/
def FunctionCall.args : FunctionCall → List DataExpr
  | .mk _ a => a

/-- Control expressions from ast.rs (`ControlExpr`). -/
inductive ControlExpr where
  | data (e : DataExpr)
  | comparison (left : DataExpr) (op : Comparator) (right : DataExpr)
  | logical (left : ControlExpr) (op : LogicalOp) (right : ControlExpr)
  | not (inner : ControlExpr)

/-- Expressions from ast.rs (`Expr`). -/
inductive Expr where
  | data (e : DataExpr)
  | control (e : ControlExpr)

/-- Assignment statement from ast.rs (`Assignment`). -/
structure Assignment where
  target : String
  value : Expr

/-- Range of a for loop from ast.rs (`RangeExpr`); the source field `end` is
named `stop` here because `end` is a Lean keyword. -/
structure RangeExpr where
  start : DataExpr
  stop : DataExpr
  step : Option DataExpr

mutual

/-- Control-language statements from ast.rs (`ControlStmt`). -/
inductive ControlStmt where
  | assignment (a : Assignment)
  | ifStmt (i : IfStmt)
  | whileStmt (w : WhileStmt)
  | forStmt (f : ForStmt)
  | ret (e : Option DataExpr)
  | print (es : List DataExpr)
  | reverseBlock (b : ReverseBlock)
  | block (stmts : List ControlStmt)

/-- If statement from ast.rs (`IfStmt`). -/
inductive IfStmt where
  | mk (condition : ControlExpr) (then_branch : List ControlStmt)
      (else_branch : Option (List ControlStmt))

/-- While statement from ast.rs (`WhileStmt`). -/
inductive WhileStmt where
  | mk (condition : ControlExpr) (body : List ControlStmt)

/-- For statement from ast.rs (`ForStmt`); the source field `variable` is
named `var` because `variable` is a Lean keyword. -/
inductive ForStmt where
  | mk (var : String) (range : RangeExpr) (body : List ControlStmt)

/-- Reversible block from ast.rs (`ReverseBlock`). -/
inductive ReverseBlock where
  | mk (body : List ReversibleStmt)

/-- Reversible statements from ast.rs (`ReversibleStmt`). -/
inductive ReversibleStmt where
  | addAssign (target : String) (e : DataExpr)
  | subAssign (target : String) (e : DataExpr)
  | ifStmt (i : IfStmt)

end

/-- Condition of an if statement. -/
def IfStmt.condition : IfStmt → ControlExpr
  | .mk c _ _ => c

/-- Then branch of an if statement. -/
def IfStmt.then_branch : IfStmt → List ControlStmt
  | .mk _ t _ => t

/-- Else branch of an if statement. -/
def IfStmt.else_branch : IfStmt → Option (List ControlStmt)
  | .mk _ _ e => e

/-- Condition of a while statement. -/
def WhileStmt.condition : WhileStmt → ControlExpr
  | .mk c _ => c

/-- Body of a while statement. -/
def WhileStmt.body : WhileStmt → List ControlStmt
  | .mk _ b => b

/-- Loop variable of a for statement. -/
def ForStmt.var : ForStmt → String
  | .mk v _ _ => v

/-- Range of a for statement. -/
def ForStmt.range : ForStmt → RangeExpr
  | .mk _ r _ => r

/-- Body of a for statement. -/
def ForStmt.body : ForStmt → List ControlStmt
  | .mk _ _ b => b

/-- Body of a reversible block. -/
def ReverseBlock.body : ReverseBlock → List ReversibleStmt
  | .mk b => b

/-- Purity annotations from ast.rs (`Purity`). -/
inductive Purity where
  | pure
  | total
  | impure
deriving DecidableEq, Repr

/-- Function parameter from ast.rs (`Param`); the source field
`type_annotation` is shortened to `ty_ann`. -/
structure Param where
  name : String
  ty_ann : Option TypeAnn

/-- Function declaration from ast.rs (`FunctionDecl`). -/
structure FunctionDecl where
  name : String
  params : List Param
  return_type : Option TypeAnn
  purity : Purity
  body : List ControlStmt

/-- Import statement from ast.rs (`ImportStmt`). -/
structure ImportStmt where
  path : List String
  aliasName : Option String

mutual

/-- Top-level items from ast.rs (`TopLevel`). -/
inductive TopLevel where
  | module (m : ModuleDecl)
  | imp (i : ImportStmt)
  | function (f : FunctionDecl)
  | control (s : ControlStmt)

/-- Module declaration from ast.rs (`ModuleDecl`). -/
inductive ModuleDecl where
  | mk (name : String) (body : List TopLevel)

end

/-- Name of a module declaration. -/
def ModuleDecl.name : ModuleDecl → String
  | .mk n _ => n

/-- Body of a module declaration. -/
def ModuleDecl.body : ModuleDecl → List TopLevel
  | .mk _ b => b

/-- Program from ast.rs (`Program`). -/
structure Program where
  statements : List TopLevel

/-! Reversible engine from packages/jtv-lang/src/reversible.rs.

Functions that mutate `&mut self` in Rust and can fail return
`State × Option JtvError` here: the returned state is the state the Rust
object is left in, including the partial mutations performed before an early
`?` return (an `Except`-style model would lose those). -/

/-- Variable environment: `HashMap<String, Value>` as an association list
with shadowing insert and first-match lookup. -/
abbrev Env := List (String × Value)

/-- First-match lookup, the observable behavior of `HashMap::get`. -/
def envFind : Env → String → Option Value
  | [], _ => none
  | (k, v) :: rest, n => if k = n then some v else envFind rest n

/-- Shadowing insert, the observable behavior of `HashMap::insert`. -/
def envInsert (e : Env) (k : String) (v : Value) : Env := (k, v) :: e

/-- Recorded operations from reversible.rs (`RecordedOp`). -/
inductive RecordedOp where
  | addAssign (target : String) (value : Value)
  | subAssign (target : String) (value : Value)
  | ifOp (condition_was_true : Bool) (then_ops else_ops : List RecordedOp)

mutual

/-- Model of `RecordedOp::inverse` (reversible.rs lines 32-52): swap
AddAssign and SubAssign; for `If`, keep the recorded branch choice and invert
each branch op list with its order reversed. -/
def RecordedOp.inverse : RecordedOp → RecordedOp
  | .addAssign target value => .subAssign target value
  | .subAssign target value => .addAssign target value
  | .ifOp c then_ops else_ops =>
      .ifOp c (RecordedOp.inverseRev then_ops) (RecordedOp.inverseRev else_ops)

/-- The `iter().rev().map(|op| op.inverse()).collect()` idiom: reverse the
list and invert every element. -/
def RecordedOp.inverseRev : List RecordedOp → List RecordedOp
  | [] => []
  | op :: rest => RecordedOp.inverseRev rest ++ [op.inverse]

end

/-- Execution trace from reversible.rs (`ReverseTrace`). -/
structure ReverseTrace where
  operations : List RecordedOp

/-- Model of `ReverseTrace::new`. -/
def ReverseTrace.new : ReverseTrace := ⟨[]⟩

/-- Model of `ReverseTrace::record` (`Vec::push`). -/
def ReverseTrace.record (t : ReverseTrace) (op : RecordedOp) : ReverseTrace :=
  ⟨t.operations ++ [op]⟩

/-- Model of `ReverseTrace::reverse_operations`: operations in reverse order
with inverses. -/
def ReverseTrace.reverse_operations (t : ReverseTrace) : List RecordedOp :=
  RecordedOp.inverseRev t.operations

/-- Reversible interpreter state from reversible.rs (`ReversibleInterpreter`). -/
structure ReversibleInterpreter where
  vars : Env  -- source field name: variables (a reserved word in Lean)
  trace : ReverseTrace

namespace ReversibleInterpreter

/-- Model of `ReversibleInterpreter::new`. -/
def new : ReversibleInterpreter := ⟨[], ReverseTrace.new⟩

/-- Model of `ReversibleInterpreter::with_state`. -/
def with_state (vs : Env) : ReversibleInterpreter := ⟨vs, ReverseTrace.new⟩

/-- Model of `ReversibleInterpreter::set`. -/
def set (st : ReversibleInterpreter) (name : String) (v : Value) : ReversibleInterpreter :=
  { st with vars := envInsert st.vars name v }

/-- Model of `ReversibleInterpreter::get`. -/
def get (st : ReversibleInterpreter) (name : String) : Option Value :=
  envFind st.vars name

/-- Model of `ReversibleInterpreter::get_variable` (lookup or
`UndefinedVariable`). -/
def get_variable (vars : Env) (name : String) : JResult Value :=
  match envFind vars name with
  | some v => .ok v
  | none => .error (.undefinedVariable name)

/-- Model of `ReversibleInterpreter::eval_data_expr` (reversible.rs lines
298-318): function calls and collections are runtime errors in reversible
context. -/
def eval_data_expr (vars : Env) : DataExpr → JResult Value
  | .number num => Value.fromNumber num
  | .identifier name => get_variable vars name
  | .add left right => do
      let left_val ← eval_data_expr vars left
      let right_val ← eval_data_expr vars right
      left_val.add right_val
  | .negate inner => do
      let value ← eval_data_expr vars inner
      value.negate
  | .functionCall _ =>
      .error (.runtimeError "Function calls not supported in reversible context")
  | .list _ => .error (.runtimeError "Collections not supported in reversible context")
  | .tuple _ => .error (.runtimeError "Collections not supported in reversible context")

/-- Model of `ReversibleInterpreter::eval_control_expr` (reversible.rs lines
254-296). -/
def eval_control_expr (vars : Env) : ControlExpr → JResult Value
  | .data data => eval_data_expr vars data
  | .comparison left op right => do
      let left_val ← eval_data_expr vars left
      let right_val ← eval_data_expr vars right
      let result ←
        match op with
        | .eq => left_val.eqOp right_val
        | .ne => left_val.neOp right_val
        | .lt => left_val.ltOp right_val
        | .le => left_val.leOp right_val
        | .gt => left_val.gtOp right_val
        | .ge => left_val.geOp right_val
      .ok (.bool result)
  | .logical left op right => do
      let left_val ← eval_control_expr vars left
      match op with
      | .and =>
          if ! left_val.isTruthy then .ok (.bool false)
          else do
            let right_val ← eval_control_expr vars right
            .ok (.bool right_val.isTruthy)
      | .or =>
          if left_val.isTruthy then .ok (.bool true)
          else do
            let right_val ← eval_control_expr vars right
            .ok (.bool right_val.isTruthy)
  | .not inner => do
      let val ← eval_control_expr vars inner
      .ok (.bool (! val.isTruthy))

/-- Model of `ReversibleInterpreter::execute_control_stmt_reversible`
(reversible.rs lines 204-222): only plain assignments are allowed inside
reversible if branches, and they are executed without being recorded. -/
def execute_control_stmt_reversible (st : ReversibleInterpreter) (stmt : ControlStmt) :
    ReversibleInterpreter × Option JtvError :=
  match stmt with
  | .assignment a =>
      match a.value with
      | .data e =>
          match eval_data_expr st.vars e with
          | .ok v => ({ st with vars := envInsert st.vars a.target v }, none)
          | .error err => (st, some err)
      | .control _ =>
          (st, some (.runtimeError "Control expressions not allowed in reverse blocks"))
  | _ => (st, some (.runtimeError "Only assignments allowed in reversible if branches"))

/-- Folds `execute_control_stmt_reversible` over a branch, stopping at the
first error as the `?` operator does. -/
def execute_control_stmts (st : ReversibleInterpreter) :
    List ControlStmt → ReversibleInterpreter × Option JtvError
  | [] => (st, none)
  | stmt :: rest =>
      match execute_control_stmt_reversible st stmt with
      | (st1, none) => execute_control_stmts st1 rest
      | (st1, some err) => (st1, some err)

/-- Model of `ReversibleInterpreter::execute_reversible_stmt` (reversible.rs
lines 137-202).  The `If` case mirrors the `std::mem::take`/`replace` dance:
the live trace is swapped out, the branch runs against a fresh trace, and the
branch trace is captured into the recorded `If` op.  (On an error inside a
branch the early `?` return fires before the old trace is restored, exactly
as in the source.) -/
def execute_reversible_stmt (st : ReversibleInterpreter) (stmt : ReversibleStmt) :
    ReversibleInterpreter × Option JtvError :=
  match stmt with
  | .addAssign target e =>
      match eval_data_expr st.vars e with
      | .error err => (st, some err)
      | .ok value =>
          match get_variable st.vars target with
          | .error err => (st, some err)
          | .ok current =>
              match current.add value with
              | .error err => (st, some err)
              | .ok new_value =>
                  ({ vars := envInsert st.vars target new_value,
                     trace := st.trace.record (.addAssign target value) }, none)
  | .subAssign target e =>
      match eval_data_expr st.vars e with
      | .error err => (st, some err)
      | .ok value =>
          match get_variable st.vars target with
          | .error err => (st, some err)
          | .ok current =>
              match value.negate with
              | .error err => (st, some err)
              | .ok neg_value =>
                  match current.add neg_value with
                  | .error err => (st, some err)
                  | .ok new_value =>
                      ({ vars := envInsert st.vars target new_value,
                         trace := st.trace.record (.subAssign target value) }, none)
  | .ifStmt if_stmt =>
      match eval_control_expr st.vars if_stmt.condition with
      | .error err => (st, some err)
      | .ok condition =>
          let condition_true := condition.isTruthy
          if condition_true then
            match execute_control_stmts { st with trace := ReverseTrace.new }
                if_stmt.then_branch with
            | (st2, some err) => (st2, some err)
            | (st2, none) =>
                let then_ops := st2.trace.operations
                ({ st2 with
                    trace := st.trace.record (.ifOp condition_true then_ops []) }, none)
          else
            match if_stmt.else_branch with
            | some else_branch =>
                match execute_control_stmts { st with trace := ReverseTrace.new }
                    else_branch with
                | (st2, some err) => (st2, some err)
                | (st2, none) =>
                    let else_ops := st2.trace.operations
                    ({ st2 with
                        trace := st.trace.record (.ifOp condition_true [] else_ops) }, none)
            | none =>
                ({ st with trace := st.trace.record (.ifOp condition_true [] []) }, none)

/-- Model of `ReversibleInterpreter::execute_forward`: run every statement of
the block, stopping at the first error. -/
def execute_forward (st : ReversibleInterpreter) (block : ReverseBlock) :
    ReversibleInterpreter × Option JtvError :=
  go st block.body
where
  /-- Statement-list fold for `execute_forward`. -/
  go (st : ReversibleInterpreter) : List ReversibleStmt → ReversibleInterpreter × Option JtvError
    | [] => (st, none)
    | stmt :: rest =>
        match execute_reversible_stmt st stmt with
        | (st1, none) => go st1 rest
        | (st1, some err) => (st1, some err)

mutual

/-- Model of `ReversibleInterpreter::apply_operation` (reversible.rs lines
224-252); only `variables` is read and written, so it acts on `Env`. -/
def apply_operation (env : Env) : RecordedOp → Env × Option JtvError
  | .addAssign target value =>
      match get_variable env target with
      | .error err => (env, some err)
      | .ok current =>
          match current.add value with
          | .error err => (env, some err)
          | .ok new_value => (envInsert env target new_value, none)
  | .subAssign target value =>
      match get_variable env target with
      | .error err => (env, some err)
      | .ok current =>
          match value.negate with
          | .error err => (env, some err)
          | .ok neg_value =>
              match current.add neg_value with
              | .error err => (env, some err)
              | .ok new_value => (envInsert env target new_value, none)
  | .ifOp condition_was_true then_ops else_ops =>
      match condition_was_true with
      | true => apply_operations env then_ops
      | false => apply_operations env else_ops

/-- Sequential application of recorded ops, stopping at the first error. -/
def apply_operations (env : Env) : List RecordedOp → Env × Option JtvError
  | [] => (env, none)
  | op :: rest =>
      match apply_operation env op with
      | (env1, none) => apply_operations env1 rest
      | (env1, some err) => (env1, some err)

end

/-- Model of `ReversibleInterpreter::execute_reverse` (reversible.rs lines
121-129): replay the inverted trace, then clear the trace; an error while
replaying returns early, leaving the trace in place. -/
def execute_reverse (st : ReversibleInterpreter) : ReversibleInterpreter × Option JtvError :=
  let reverse_ops := st.trace.reverse_operations
  match apply_operations st.vars reverse_ops with
  | (env, none) => ({ vars := env, trace := ReverseTrace.new }, none)
  | (env, some err) => ({ vars := env, trace := st.trace }, some err)

/-- Model of `ReversibleInterpreter::execute_and_reverse` (reversible.rs
lines 132-135). -/
def execute_and_reverse (st : ReversibleInterpreter) (block : ReverseBlock) :
    ReversibleInterpreter × Option JtvError :=
  match execute_forward st block with
  | (st1, none) => execute_reverse st1
  | (st1, some err) => (st1, some err)

end ReversibleInterpreter

mutual

/-- Model of `expr_contains_var` (reversible.rs lines 389-399): does the
variable occur anywhere in the Data expression. -/
def expr_contains_var : DataExpr → String → Bool
  | .number _, _ => false
  | .identifier name, var => name == var
  | .add left right, var => expr_contains_var left var || expr_contains_var right var
  | .negate inner, var => expr_contains_var inner var
  | .functionCall (.mk _ args), var => expr_list_contains_var args var
  | .list elems, var => expr_list_contains_var elems var
  | .tuple elems, var => expr_list_contains_var elems var

/-- The `iter().any(...)` folds inside `expr_contains_var`. -/
def expr_list_contains_var : List DataExpr → String → Bool
  | [], _ => false
  | e :: rest, var => expr_contains_var e var || expr_list_contains_var rest var

end

mutual

/-- Model of `check_reversibility` (reversible.rs lines 351-356). -/
def check_reversibility : ReverseBlock → JResult Unit
  | .mk body => check_reversible_stmts body

/-- Statement-list fold for `check_reversibility`, stopping at the first
error as the `?` operator does. -/
def check_reversible_stmts : List ReversibleStmt → JResult Unit
  | [] => .ok ()
  | stmt :: rest => do
      check_reversible_stmt stmt
      check_reversible_stmts rest

/-- Model of `check_reversible_stmt` (reversible.rs lines 358-387): reject an
AddAssign or SubAssign whose target occurs in its own right-hand side; inside
If branches, recursively check nested reverse blocks. -/
def check_reversible_stmt : ReversibleStmt → JResult Unit
  | .addAssign target e =>
      if expr_contains_var e target then
        .error (.runtimeError "Variable cannot appear in its own reversible assignment")
      else .ok ()
  | .subAssign target e =>
      if expr_contains_var e target then
        .error (.runtimeError "Variable cannot appear in its own reversible assignment")
      else .ok ()
  | .ifStmt (.mk _ then_branch else_branch) => do
      check_branch_reverse_blocks then_branch
      match else_branch with
      | some else_stmts => check_branch_reverse_blocks else_stmts
      | none => .ok ()

/-- Scan of an if branch for nested `ControlStmt::ReverseBlock` statements,
as the loops in `check_reversible_stmt` do. -/
def check_branch_reverse_blocks : List ControlStmt → JResult Unit
  | [] => .ok ()
  | .reverseBlock b :: rest => do
      check_reversibility b
      check_branch_reverse_blocks rest
  | _ :: rest => check_branch_reverse_blocks rest

end

/-! Purity checker from crates/jtv-core/src/purity.rs. -/

/-- Generic first-match lookup in a string-keyed association list (the
observable behavior of `HashMap::get` for the checker maps). -/
def strFind {α : Type} : List (String × α) → String → Option α
  | [], _ => none
  | (k, v) :: rest, n => if k = n then some v else strFind rest n

/-- Purity analysis result from purity.rs (`PurityLevel`). -/
inductive PurityLevel where
  | total
  | pure
  | impure
deriving DecidableEq, Repr

namespace PurityLevel

/-- Model of `PurityLevel::satisfies` (purity.rs lines 21-33). -/
def satisfies (level : PurityLevel) (required : Purity) : Bool :=
  match level, required with
  | .total, _ => true
  | .pure, .pure => true
  | .pure, .impure => true
  | .pure, .total => false
  | .impure, .impure => true
  | .impure, _ => false

/-- Model of `PurityLevel::combine` (purity.rs lines 36-42): the least pure
level wins. -/
def combine (a b : PurityLevel) : PurityLevel :=
  match a, b with
  | .impure, _ => .impure
  | _, .impure => .impure
  | .pure, _ => .pure
  | _, .pure => .pure
  | .total, .total => .total

end PurityLevel

/-- Modelled from the spec: jtv-core re-declares the AST (its ast.rs is not in
the source tree) and its `FunctionCall` exposes `qualified_name()`, looked up
before the bare name when resolving call purity.  With jtv-lang's
`FunctionCall` (name and args, no module path) the fully-qualified name
coincides with the bare name; both lookups are kept below. -/
def FunctionCall.qualified_name (call : FunctionCall) : String := call.name

/-- Function purity table of the checker (`func_purity: HashMap<String,
PurityLevel>`). -/
abbrev FuncPurity := List (String × PurityLevel)

/-- Model of `PurityChecker::declared_to_level` (purity.rs lines 85-91). -/
def declared_to_level : Purity → PurityLevel
  | .total => .total
  | .pure => .pure
  | .impure => .impure

mutual

/-- Model of `PurityChecker::analyze_body` (purity.rs lines 121-130): fold
the statements' levels with `combine`, starting from `Total`. -/
def analyze_body (fp : FuncPurity) (stmts : List ControlStmt) : JResult PurityLevel :=
  analyze_body_from fp .total stmts

/-- The fold inside `analyze_body`, with the running level explicit. -/
def analyze_body_from (fp : FuncPurity) (level : PurityLevel) :
    List ControlStmt → JResult PurityLevel
  | [] => .ok level
  | stmt :: rest => do
      let stmt_level ← analyze_stmt fp stmt
      analyze_body_from fp (level.combine stmt_level) rest

/-- Model of `PurityChecker::analyze_stmt` (purity.rs lines 133-191).  A
`while` or `for` loop combines its body's level with at most `Pure`. -/
def analyze_stmt (fp : FuncPurity) : ControlStmt → JResult PurityLevel
  | .assignment a =>
      match a.value with
      | .data e => analyze_data_expr fp e
      | .control e => analyze_control_expr fp e
  | .ifStmt (.mk condition then_branch else_branch) => do
      let cond_level ← analyze_control_expr fp condition
      let then_level ← analyze_body fp then_branch
      let else_level ←
        match else_branch with
        | some else_stmts => analyze_body fp else_stmts
        | none => .ok PurityLevel.total
      .ok ((cond_level.combine then_level).combine else_level)
  | .whileStmt (.mk _ body) => do
      let body_level ← analyze_body fp body
      .ok (PurityLevel.pure.combine body_level)
  | .forStmt (.mk _ _ body) => do
      let body_level ← analyze_body fp body
      .ok (PurityLevel.pure.combine body_level)
  | .ret e =>
      match e with
      | some expr => analyze_data_expr fp expr
      | none => .ok PurityLevel.total
  | .print _ => .ok PurityLevel.impure
  | .reverseBlock (.mk body) => analyze_rev_body_from fp .total body
  | .block stmts => analyze_body fp stmts

/-- The fold over reversible statements in the `ReverseBlock` arm of
`analyze_stmt`. -/
def analyze_rev_body_from (fp : FuncPurity) (level : PurityLevel) :
    List ReversibleStmt → JResult PurityLevel
  | [] => .ok level
  | stmt :: rest => do
      let stmt_level ← analyze_reversible_stmt fp stmt
      analyze_rev_body_from fp (level.combine stmt_level) rest

/-- Model of `PurityChecker::analyze_reversible_stmt` (purity.rs lines
193-209). -/
def analyze_reversible_stmt (fp : FuncPurity) : ReversibleStmt → JResult PurityLevel
  | .addAssign _ e => analyze_data_expr fp e
  | .subAssign _ e => analyze_data_expr fp e
  | .ifStmt (.mk condition then_branch else_branch) => do
      let cond_level ← analyze_control_expr fp condition
      let then_level ← analyze_body fp then_branch
      let else_level ←
        match else_branch with
        | some else_stmts => analyze_body fp else_stmts
        | none => .ok PurityLevel.total
      .ok ((cond_level.combine then_level).combine else_level)

/-- Model of `PurityChecker::analyze_data_expr` (purity.rs lines 212-257):
an unresolved call name is conservatively `Impure`; call arguments are folded
in on top of the callee's level. -/
def analyze_data_expr (fp : FuncPurity) : DataExpr → JResult PurityLevel
  | .number _ => .ok PurityLevel.total
  | .identifier _ => .ok PurityLevel.total
  | .add left right => do
      let left_level ← analyze_data_expr fp left
      let right_level ← analyze_data_expr fp right
      .ok (left_level.combine right_level)
  | .negate inner => analyze_data_expr fp inner
  | .functionCall (.mk name args) =>
      let qualified := FunctionCall.qualified_name (.mk name args)
      let func_level :=
        match strFind fp qualified with
        | some l => some l
        | none => strFind fp name
      analyze_expr_list_from fp (func_level.getD PurityLevel.impure) args
  | .list elems => analyze_expr_list_from fp .total elems
  | .tuple elems => analyze_expr_list_from fp .total elems

/-- The argument/element folds inside `analyze_data_expr`, with the running
level explicit. -/
def analyze_expr_list_from (fp : FuncPurity) (level : PurityLevel) :
    List DataExpr → JResult PurityLevel
  | [] => .ok level
  | e :: rest => do
      let e_level ← analyze_data_expr fp e
      analyze_expr_list_from fp (level.combine e_level) rest

/-- Model of `PurityChecker::analyze_control_expr` (purity.rs lines
259-274). -/
def analyze_control_expr (fp : FuncPurity) : ControlExpr → JResult PurityLevel
  | .data data => analyze_data_expr fp data
  | .comparison left _ right => do
      let left_level ← analyze_data_expr fp left
      let right_level ← analyze_data_expr fp right
      .ok (left_level.combine right_level)
  | .logical left _ right => do
      let left_level ← analyze_control_expr fp left
      let right_level ← analyze_control_expr fp right
      .ok (left_level.combine right_level)
  | .not inner => analyze_control_expr fp inner

end

/-- Model of `PurityChecker::check_function` (purity.rs lines 94-118).  The
`Impure` message arm is `unreachable!()` in the source because `Impure`
satisfies every analyzed level; the placeholder text here is never produced. -/
def purity_check_function (fp : FuncPurity) (func : FunctionDecl) : JResult Unit := do
  let actual ← analyze_body fp func.body
  if ! actual.satisfies func.purity then
    let msg :=
      match func.purity with
      | .total => "Function is marked total but contains loops or impure calls"
      | .pure => "Function is marked pure but contains I/O operations"
      | .impure => "unreachable"
    .error (.purityViolation msg)
  else
    .ok ()

/-- First pass of `PurityChecker::check_program`: record every top-level
function's declared purity.  Later declarations shadow earlier ones as
`HashMap::insert` replaces, so each entry is pushed in front of the
accumulator and `strFind` returns the most recent one. -/
def collect_func_purity (acc : FuncPurity) : List TopLevel → FuncPurity
  | [] => acc
  | .function f :: rest =>
      collect_func_purity ((f.name, declared_to_level f.purity) :: acc) rest
  | _ :: rest => collect_func_purity acc rest

/-- Second pass of `PurityChecker::check_program`: check every top-level
function, returning the first violation. -/
def purity_check_functions (fp : FuncPurity) : List TopLevel → JResult Unit
  | [] => .ok ()
  | .function f :: rest => do
      purity_check_function fp f
      purity_check_functions fp rest
  | _ :: rest => purity_check_functions fp rest

/-- Model of `PurityChecker::check_program` (purity.rs lines 62-83).  The
`errors` vector is never pushed to in the source, so the final emptiness test
always passes and the result is just the two passes. -/
def purity_check_program (program : Program) : JResult Unit :=
  let fp := collect_func_purity [] program.statements
  purity_check_functions fp program.statements

/-! Type checker from packages/jtv-lang/src/typechecker.rs.  The source
`Type` enum is named `Ty` here (`Type` is a Lean keyword). -/

/-- Static types from typechecker.rs (`Type`). -/
inductive Ty where
  | int
  | float
  | rational
  | complex
  | hex
  | binary
  | symbolic
  | bool
  | string
  | unit
  | list (t : Ty)
  | tuple (ts : List Ty)
  | func (params : List Ty) (ret : Ty)
  | any
deriving Repr

mutual

/-- Structural boolean equality on types, mirroring the derived `PartialEq`
on `Type`. -/
def Ty.beq : Ty → Ty → Bool
  | .int, .int => true
  | .float, .float => true
  | .rational, .rational => true
  | .complex, .complex => true
  | .hex, .hex => true
  | .binary, .binary => true
  | .symbolic, .symbolic => true
  | .bool, .bool => true
  | .string, .string => true
  | .unit, .unit => true
  | .list a, .list b => Ty.beq a b
  | .tuple a, .tuple b => Ty.beqList a b
  | .func p1 r1, .func p2 r2 => Ty.beqList p1 p2 && Ty.beq r1 r2
  | .any, .any => true
  | _, _ => false

/-- Elementwise equality for type lists. -/
def Ty.beqList : List Ty → List Ty → Bool
  | [], [] => true
  | a :: as, b :: bs => Ty.beq a b && Ty.beqList as bs
  | _, _ => false

end

namespace Ty

/-- Model of `Type::coercible_to` (typechecker.rs lines 29-48): reflexive
plus the fixed promotion set, with `Any` matching in both directions. -/
def coercible_to (self target : Ty) : Bool :=
  if Ty.beq self target then true
  else
    match self, target with
    | .int, .float => true
    | .int, .rational => true
    | .int, .complex => true
    | .hex, .int => true
    | .binary, .int => true
    | .float, .complex => true
    | .any, _ => true
    | _, .any => true
    | _, _ => false

/-- Model of `Type::add_result` (typechecker.rs lines 51-76). -/
def add_result (self other : Ty) : Option Ty :=
  match self, other with
  | .int, .int => some .int
  | .float, .float => some .float
  | .rational, .rational => some .rational
  | .complex, .complex => some .complex
  | .hex, .hex => some .hex
  | .binary, .binary => some .binary
  | .symbolic, .symbolic => some .symbolic
  | .string, .string => some .string
  | .int, .float => some .float
  | .float, .int => some .float
  | .int, .rational => some .rational
  | .rational, .int => some .rational
  | .int, .complex => some .complex
  | .complex, .int => some .complex
  | .float, .complex => some .complex
  | .complex, .float => some .complex
  | .hex, .int => some .int
  | .int, .hex => some .int
  | .binary, .int => some .int
  | .int, .binary => some .int
  | .any, t => some t
  | t, .any => some t
  | _, _ => none

/-- Model of `Type::negate_result` (typechecker.rs lines 79-91). -/
def negate_result : Ty → Option Ty
  | .int => some .int
  | .float => some .float
  | .rational => some .rational
  | .complex => some .complex
  | .hex => some .hex
  | .binary => some .binary
  | .symbolic => some .symbolic
  | .any => some .any
  | _ => none

end Ty

mutual

/-- Model of `TypeChecker::unify` (typechecker.rs lines 209-257): symmetric
unification—`Any` absorbs, the coercion pairs widen, containers unify
structurally. -/
def unify (t1 t2 : Ty) : Option Ty :=
  if Ty.beq t1 t2 then some t1
  else
    match t1, t2 with
    | .any, t => some t
    | t, .any => some t
    | .int, .float => some .float
    | .float, .int => some .float
    | .int, .rational => some .rational
    | .rational, .int => some .rational
    | .int, .complex => some .complex
    | .complex, .int => some .complex
    | .float, .complex => some .complex
    | .complex, .float => some .complex
    | .hex, .int => some .int
    | .int, .hex => some .int
    | .binary, .int => some .int
    | .int, .binary => some .int
    | .list a, .list b =>
        match unify a b with
        | some t => some (.list t)
        | none => none
    | .tuple a, .tuple b =>
        if a.length = b.length then
          match unifyZip a b with
          | some ts => some (.tuple ts)
          | none => none
        else none
    | .func p1 r1, .func p2 r2 =>
        if p1.length = p2.length then
          match unifyZip p1 p2, unify r1 r2 with
          | some params, some ret => some (.func params ret)
          | _, _ => none
        else none
    | _, _ => none

/-- Pairwise unification of equal-length type lists (the `zip`/`collect`
idiom inside `unify`). -/
def unifyZip : List Ty → List Ty → Option (List Ty)
  | [], [] => some []
  | a :: as, b :: bs =>
      match unify a b, unifyZip as bs with
      | some t, some ts => some (t :: ts)
      | _, _ => none
  | _, _ => none

end

/-- Model of `TypeChecker::type_suggestion` (typechecker.rs lines 260-268);
the interpolated renderings are abbreviated. -/
def type_suggestion (expected got : Ty) : String :=
  match expected, got with
  | .int, .float => "Consider using a rational instead of float for exact arithmetic"
  | .float, .int => "You can assign an Int to a Float variable"
  | .bool, _ => "Use a comparison expression to convert to Bool"
  | .list _, .tuple _ => "Lists use [...], tuples use (...)"
  | _, _ => "Cannot convert these types"

mutual

/-- Model of `TypeChecker::annotation_to_type` on a present annotation
(typechecker.rs lines 308-339). -/
def annToTypeSome : TypeAnn → Ty
  | .basic b =>
      match b with
      | .int => .int
      | .float => .float
      | .rational => .rational
      | .complex => .complex
      | .hex => .hex
      | .binary => .binary
      | .symbolic => .symbolic
      | .bool => .bool
      | .string => .string
  | .list inner => .list (annToTypeSome inner)
  | .tuple ts => .tuple (annListToType ts)
  | .func params ret => .func (annListToType params) (annToTypeSome ret)

/-- Elementwise `annotation_to_type`. -/
def annListToType : List TypeAnn → List Ty
  | [] => []
  | a :: rest => annToTypeSome a :: annListToType rest

end

/-- Model of `TypeChecker::annotation_to_type` (typechecker.rs lines
308-339): a missing annotation is `Any`. -/
def annToType : Option TypeAnn → Ty
  | none => .any
  | some a => annToTypeSome a

/-- Type environment from typechecker.rs (`TypeEnv`): variable types and
function signatures (params, return, purity). -/
structure TypeEnv where
  vars : List (String × Ty)
  funcs : List (String × (List Ty × Ty × Purity))

/-- Model of `TypeEnv::new`. -/
def TypeEnv.new : TypeEnv := ⟨[], []⟩

/-- Model of `TypeEnv::get_var`. -/
def TypeEnv.get_var (env : TypeEnv) (name : String) : Option Ty :=
  strFind env.vars name

/-- Model of `TypeEnv::set_var` (shadowing insert). -/
def TypeEnv.set_var (env : TypeEnv) (name : String) (ty : Ty) : TypeEnv :=
  { env with vars := (name, ty) :: env.vars }

/-- Model of `TypeEnv::get_func`. -/
def TypeEnv.get_func (env : TypeEnv) (name : String) : Option (List Ty × Ty × Purity) :=
  strFind env.funcs name

/-- Model of `TypeEnv::set_func` (shadowing insert). -/
def TypeEnv.set_func (env : TypeEnv) (name : String) (params : List Ty) (ret : Ty)
    (purity : Purity) : TypeEnv :=
  { env with funcs := (name, (params, ret, purity)) :: env.funcs }

/-- Type checker state from typechecker.rs (`TypeChecker`).  The `errors` and
`constraints` vectors are omitted: nothing in the source ever pushes to
either (`add_constraint` is never called), so `errors.is_empty()` at the end
of `check_program` always holds. -/
structure TypeChecker where
  env : TypeEnv
  expected_return : Option Ty

/-- Model of `TypeChecker::new`. -/
def TypeChecker.new : TypeChecker := ⟨TypeEnv.new, none⟩

/-- Parameter types of a declaration, as mapped in `register_function`. -/
def paramTypes : List Param → List Ty
  | [] => []
  | p :: rest => annToType p.ty_ann :: paramTypes rest

/-- The return type `register_function` and `check_function` compute: the
annotation when present, `Unit` when absent (typechecker.rs lines 298-302 and
364-368 both use `.unwrap_or(Type::Unit)`). -/
def declaredReturnType (func : FunctionDecl) : Ty :=
  match func.return_type with
  | some t => annToTypeSome t
  | none => .unit

/-- Model of `TypeChecker::register_function` (typechecker.rs lines
291-306). -/
def register_function (tc : TypeChecker) (func : FunctionDecl) : TypeChecker :=
  { tc with
      env := tc.env.set_func func.name (paramTypes func.params)
        (declaredReturnType func) func.purity }

/-- Model of `TypeChecker::number_type` (typechecker.rs lines 669-679). -/
def number_type : Number → Ty
  | .int _ => .int
  | .float _ => .float
  | .rational _ _ => .rational
  | .complex _ _ => .complex
  | .hex _ => .hex
  | .binary _ => .binary
  | .symbolic _ => .symbolic

mutual

/-- Model of `TypeChecker::infer_data_expr` (typechecker.rs lines 575-647). -/
def infer_data_expr (tc : TypeChecker) : DataExpr → JResult Ty
  | .number num => .ok (number_type num)
  | .identifier name =>
      match tc.env.get_var name with
      | some ty => .ok ty
      | none => .error (.undefinedVariable name)
  | .add left right => do
      let left_ty ← infer_data_expr tc left
      let right_ty ← infer_data_expr tc right
      match left_ty.add_result right_ty with
      | some ty => .ok ty
      | none => .error (.typeError "Cannot add these types")
  | .negate inner => do
      let inner_ty ← infer_data_expr tc inner
      match inner_ty.negate_result with
      | some ty => .ok ty
      | none => .error (.typeError "Cannot negate this type")
  | .functionCall (.mk name args) =>
      match tc.env.get_func name with
      | some (param_types, ret_ty, _) =>
          if args.length ≠ param_types.length then
            .error (.arityMismatch param_types.length args.length)
          else do
            check_call_args tc args param_types
            .ok ret_ty
      | none => .error (.undefinedFunction name)
  | .list elements =>
      match elements with
      | [] => .ok (.list .any)
      | first :: rest => do
          let first_ty ← infer_data_expr tc first
          check_list_elems tc first_ty rest
          .ok (.list first_ty)
  | .tuple elements => do
      let types ← infer_types tc elements
      .ok (.tuple types)

/-- The argument-coercibility loop inside the `FunctionCall` arm (the `zip`
stops at the shorter list, but arity was already checked). -/
def check_call_args (tc : TypeChecker) : List DataExpr → List Ty → JResult Unit
  | [], _ => .ok ()
  | _, [] => .ok ()
  | arg :: args, expected_ty :: tys => do
      let arg_ty ← infer_data_expr tc arg
      if ! arg_ty.coercible_to expected_ty then
        .error (.typeError "Argument type mismatch")
      else
        check_call_args tc args tys

/-- The homogeneous-by-coercion check over the tail of a list literal. -/
def check_list_elems (tc : TypeChecker) (first_ty : Ty) : List DataExpr → JResult Unit
  | [] => .ok ()
  | elem :: rest => do
      let elem_ty ← infer_data_expr tc elem
      if ! elem_ty.coercible_to first_ty && ! first_ty.coercible_to elem_ty then
        .error (.typeError "List elements must have consistent types")
      else
        check_list_elems tc first_ty rest

/-- Elementwise inference for tuple literals. -/
def infer_types (tc : TypeChecker) : List DataExpr → JResult (List Ty)
  | [] => .ok []
  | e :: rest => do
      let ty ← infer_data_expr tc e
      let tys ← infer_types tc rest
      .ok (ty :: tys)

end

/-- Model of `TypeChecker::infer_control_expr` (typechecker.rs lines
649-667). -/
def infer_control_expr (tc : TypeChecker) : ControlExpr → JResult Ty
  | .data data => infer_data_expr tc data
  | .comparison left _ right => do
      let _ ← infer_data_expr tc left
      let _ ← infer_data_expr tc right
      .ok .bool
  | .logical left _ right => do
      let _ ← infer_control_expr tc left
      let _ ← infer_control_expr tc right
      .ok .bool
  | .not inner => do
      let _ ← infer_control_expr tc inner
      .ok .bool

mutual

/-- Model of `TypeChecker::check_control_stmt` (typechecker.rs lines
461-543); environment mutations are threaded through the returned state. -/
def check_control_stmt (tc : TypeChecker) : ControlStmt → JResult TypeChecker
  | .assignment a => do
      let ty ←
        match a.value with
        | .data e => infer_data_expr tc e
        | .control e => infer_control_expr tc e
      .ok { tc with env := tc.env.set_var a.target ty }
  | .ifStmt (.mk condition then_branch else_branch) => do
      let _ ← infer_control_expr tc condition
      let tc1 ← check_control_stmts tc then_branch
      match else_branch with
      | some else_stmts => check_control_stmts tc1 else_stmts
      | none => .ok tc1
  | .whileStmt (.mk condition body) => do
      let _ ← infer_control_expr tc condition
      check_control_stmts tc body
  | .forStmt (.mk var range body) => do
      let start_ty ← infer_data_expr tc range.start
      let end_ty ← infer_data_expr tc range.stop
      if ! start_ty.coercible_to .int then
        .error (.typeError "Range start must be Int")
      else if ! end_ty.coercible_to .int then
        .error (.typeError "Range end must be Int")
      else do
        let tc1 := { tc with env := tc.env.set_var var .int }
        check_control_stmts tc1 body
  | .ret e => do
      match e with
      | some expr => do
          let _ ← infer_data_expr tc expr
          .ok tc
      | none => .ok tc
  | .print exprs => do
      let _ ← infer_types tc exprs
      .ok tc
  | .reverseBlock (.mk body) => check_reversible_stmts_tc tc body
  | .block stmts => check_control_stmts tc stmts

/-- Statement-list fold for `check_control_stmt`. -/
def check_control_stmts (tc : TypeChecker) : List ControlStmt → JResult TypeChecker
  | [] => .ok tc
  | stmt :: rest => do
      let tc1 ← check_control_stmt tc stmt
      check_control_stmts tc1 rest

/-- Model of `TypeChecker::check_reversible_stmt` (typechecker.rs lines
545-572). -/
def check_reversible_stmt_tc (tc : TypeChecker) : ReversibleStmt → JResult TypeChecker
  | .addAssign target e => do
      let expr_ty ← infer_data_expr tc e
      let target_ty := (tc.env.get_var target).getD .any
      match target_ty.add_result expr_ty with
      | some _ => .ok tc
      | none => .error (.typeError "Cannot add these types")
  | .subAssign target e => do
      let expr_ty ← infer_data_expr tc e
      let target_ty := (tc.env.get_var target).getD .any
      match target_ty.add_result expr_ty with
      | some _ => .ok tc
      | none => .error (.typeError "Cannot add these types")
  | .ifStmt (.mk condition then_branch else_branch) => do
      let _ ← infer_control_expr tc condition
      let tc1 ← check_control_stmts tc then_branch
      match else_branch with
      | some else_stmts => check_control_stmts tc1 else_stmts
      | none => .ok tc1

/-- Reversible-statement fold for the `ReverseBlock` arm. -/
def check_reversible_stmts_tc (tc : TypeChecker) : List ReversibleStmt → JResult TypeChecker
  | [] => .ok tc
  | stmt :: rest => do
      let tc1 ← check_reversible_stmt_tc tc stmt
      check_reversible_stmts_tc tc1 rest

end

mutual

/-- Model of `TypeChecker::check_control_stmt_with_return` (typechecker.rs
lines 404-459): returns the type of the last `return` encountered, checking
each `return` against the expected return type. -/
def check_control_stmt_with_return (tc : TypeChecker) (stmt : ControlStmt) :
    JResult (TypeChecker × Option Ty)
  :=
  match stmt with
  | .ret e => do
      let ret_ty ←
        match e with
        | some expr => infer_data_expr tc expr
        | none => .ok Ty.unit
      match tc.expected_return with
      | some expected =>
          match unify expected ret_ty with
          | none =>
              .error (.typeError ("Return type mismatch. " ++ type_suggestion expected ret_ty))
          | some _ => .ok (tc, some ret_ty)
      | none => .ok (tc, some ret_ty)
  | .ifStmt (.mk condition then_branch else_branch) => do
      let _ ← infer_control_expr tc condition
      let (tc1, ret1) ← check_stmts_with_return tc none then_branch
      match else_branch with
      | some else_stmts => check_stmts_with_return tc1 ret1 else_stmts
      | none => .ok (tc1, ret1)
  | .block stmts => check_stmts_with_return tc none stmts
  | other => do
      let tc1 ← check_control_stmt tc other
      .ok (tc1, none)

/-- Fold of `check_control_stmt_with_return` over a statement list; a later
`Some` return type overwrites an earlier one (the single linear walk of the
source). -/
def check_stmts_with_return (tc : TypeChecker) (acc : Option Ty) :
    List ControlStmt → JResult (TypeChecker × Option Ty)
  | [] => .ok (tc, acc)
  | stmt :: rest => do
      let (tc1, r) ← check_control_stmt_with_return tc stmt
      match r with
      | some ty => check_stmts_with_return tc1 (some ty) rest
      | none => check_stmts_with_return tc1 acc rest

end

/-- Model of `TypeChecker::check_function` (typechecker.rs lines 358-401):
set the expected return type (`Unit` when unannotated), bind parameters,
walk the body tracking the last return type, compare it with the declared
type unless the declared type is `Unit` or the inferred one is `Any`, and
restore the outer environment. -/
def check_function (tc : TypeChecker) (func : FunctionDecl) : JResult TypeChecker := do
  let old_env := tc.env
  let old_expected_return := tc.expected_return
  let expected_ret := declaredReturnType func
  let tc1 := { tc with expected_return := some expected_ret }
  let tc2 := bindParams tc1 func.params
  let (tc3, inferred_opt) ← walkBody tc2 func.body
  let inferred_return := inferred_opt.getD Ty.unit
  if ! Ty.beq expected_ret .unit && ! Ty.beq inferred_return .any then
    match unify expected_ret inferred_return with
    | none =>
        .error (.typeError ("Function declares one return type but returns another. "
          ++ type_suggestion expected_ret inferred_return))
    | some _ => .ok { tc3 with env := old_env, expected_return := old_expected_return }
  else
    .ok { tc3 with env := old_env, expected_return := old_expected_return }
where
  /-- Parameter binding loop at the start of `check_function`. -/
  bindParams (tc : TypeChecker) : List Param → TypeChecker
    | [] => tc
    | p :: rest => bindParams { tc with env := tc.env.set_var p.name (annToType p.ty_ann) } rest
  /-- Body walk of `check_function`: `inferred_return` starts as `Unit` and
  is overwritten by each statement that yields a return type. -/
  walkBody (tc : TypeChecker) (stmts : List ControlStmt) : JResult (TypeChecker × Option Ty) := do
    let (tc1, r) ← check_stmts_with_return tc none stmts
    .ok (tc1, r)

/-- First pass of `TypeChecker::check_program`: register every top-level
function signature. -/
def register_functions (tc : TypeChecker) : List TopLevel → TypeChecker
  | [] => tc
  | .function f :: rest => register_functions (register_function tc f) rest
  | _ :: rest => register_functions tc rest

mutual

/-- Model of `TypeChecker::check_top_level` (typechecker.rs lines 341-356). -/
def check_top_level (tc : TypeChecker) : TopLevel → JResult TypeChecker
  | .module (.mk _ body) => check_top_levels tc body
  | .imp _ => .ok tc
  | .function f => check_function tc f
  | .control stmt => check_control_stmt tc stmt

/-- Fold of `check_top_level` over a list of items. -/
def check_top_levels (tc : TypeChecker) : List TopLevel → JResult TypeChecker
  | [] => .ok tc
  | item :: rest => do
      let tc1 ← check_top_level tc item
      check_top_levels tc1 rest

end

/-- Model of `TypeChecker::check_program` (typechecker.rs lines 271-289):
register every top-level function, then check everything.  Nothing ever
pushes to the `errors` vector, so the final emptiness test always passes. -/
def tc_check_program (program : Program) : JResult Unit := do
  let tc := register_functions TypeChecker.new program.statements
  let _ ← check_top_levels tc program.statements
  .ok ()

/-! Interpreter from packages/jtv-lang/src/interpreter.rs.

The Rust evaluator can genuinely diverge (recursion is unguarded), so every
evaluation function takes a fuel parameter decremented on each call;
exhausting it yields the distinguished `fuelOut` outcome, never confused
with a source-level error.  The optional statement trace (`add_trace`) only
appends to a log and never affects evaluation, so it is omitted; `print`
output is recorded as the list of printed value rows (the `Display`
rendering is not modeled).  On a source-level error the partially mutated
interpreter state is dropped (no claim below observes it). -/

/-- The loop ceiling from interpreter.rs line 7 (`MAX_ITERATIONS`). -/
def MAX_ITERATIONS : Nat := 1000000

/-- Interpreter state from interpreter.rs (`Interpreter`): globals, the
function table, the call-stack frames (innermost first), the iteration
counter, and the print output. -/
structure Interp where
  globals : Env
  functions : List (String × FunctionDecl)
  call_stack : List Env
  iteration_count : Nat
  output : List (List Value)

/-- Model of `Interpreter::new`. -/
def Interp.new : Interp := ⟨[], [], [], 0, []⟩

/-- Frame walk of `Interpreter::get_variable`: innermost frame first. -/
def frames_find : List Env → String → Option Value
  | [], _ => none
  | frame :: rest, n =>
      match envFind frame n with
      | some v => some v
      | none => frames_find rest n

/-- Model of `Interpreter::get_variable` (interpreter.rs lines 367-380):
locals innermost-to-outermost, then globals. -/
def Interp.get_variable (st : Interp) (name : String) : JResult Value :=
  match frames_find st.call_stack name with
  | some v => .ok v
  | none =>
      match envFind st.globals name with
      | some v => .ok v
      | none => .error (.undefinedVariable name)

/-- Model of `Interpreter::set_variable` (interpreter.rs lines 382-388):
write the innermost frame if one exists, else globals. -/
def Interp.set_variable (st : Interp) (name : String) (v : Value) : Interp :=
  match st.call_stack with
  | frame :: rest => { st with call_stack := envInsert frame name v :: rest }
  | [] => { st with globals := envInsert st.globals name v }

/-- Model of `Interpreter::check_iteration_limit` (interpreter.rs lines
390-396). -/
def Interp.check_iteration_limit (st : Interp) : JResult Unit :=
  if st.iteration_count > MAX_ITERATIONS then .error .maxIterationsExceeded else .ok ()

/-- Outcome of a fueled evaluation step: a value with the updated state, a
source-level error, or fuel exhaustion (the Rust code still running). -/
inductive RunRes (α : Type) where
  | ok (a : α) (st : Interp)
  | err (e : JtvError)
  | fuelOut

mutual

/-- Model of `Interpreter::eval_control_stmt` (interpreter.rs lines 90-212).
Returns the optional early `return` value. -/
def eval_control_stmt (fuel : Nat) (st : Interp) (stmt : ControlStmt) :
    RunRes (Option Value) :=
  match fuel with
  | 0 => .fuelOut
  | fuel + 1 =>
    match st.check_iteration_limit with
    | .error e => .err e
    | .ok () =>
      match stmt with
      | .assignment a =>
          let value :=
            match a.value with
            | .data e => eval_data_expr fuel st e
            | .control e => eval_control_expr_to_value fuel st e
          match value with
          | .ok v st1 => .ok none (st1.set_variable a.target v)
          | .err e => .err e
          | .fuelOut => .fuelOut
      | .ifStmt (.mk condition then_branch else_branch) =>
          match eval_control_expr_to_value fuel st condition with
          | .err e => .err e
          | .fuelOut => .fuelOut
          | .ok cond st1 =>
              if cond.isTruthy then eval_stmts_early fuel st1 then_branch
              else
                match else_branch with
                | some else_stmts => eval_stmts_early fuel st1 else_stmts
                | none => .ok none st1
      | .whileStmt w => while_loop fuel st w
      | .forStmt (.mk var range body) =>
          match eval_data_expr fuel st range.start with
          | .err e => .err e
          | .fuelOut => .fuelOut
          | .ok start st1 =>
              match eval_data_expr fuel st1 range.stop with
              | .err e => .err e
              | .fuelOut => .fuelOut
              | .ok stop st2 =>
                  match start, stop with
                  | .int start_int, .int end_int =>
                      let step : RunRes Int :=
                        match range.step with
                        | some step_expr =>
                            match eval_data_expr fuel st2 step_expr with
                            | .ok (.int s) st3 => .ok s st3
                            | .ok _ _ => .err (.typeError "Step must be an integer")
                            | .err e => .err e
                            | .fuelOut => .fuelOut
                        | none => .ok 1 st2
                      match step with
                      | .err e => .err e
                      | .fuelOut => .fuelOut
                      | .ok step_int st3 =>
                          for_loop fuel st3 var body step_int end_int start_int
                  | _, _ => .err (.typeError "Range must be integers")
      | .ret e =>
          match e with
          | some expr =>
              match eval_data_expr fuel st expr with
              | .ok v st1 => .ok (some v) st1
              | .err e => .err e
              | .fuelOut => .fuelOut
          | none => .ok (some .unit) st
      | .print exprs =>
          match eval_exprs fuel st exprs with
          | .ok vs st1 => .ok none { st1 with output := st1.output ++ [vs] }
          | .err e => .err e
          | .fuelOut => .fuelOut
      | .reverseBlock (.mk body) =>
          match eval_reverse_stmts fuel st body with
          | .ok () st1 => .ok none st1
          | .err e => .err e
          | .fuelOut => .fuelOut
      | .block stmts => eval_stmts_early fuel st stmts

/-- The statement loops of compound constructs: run each statement, stopping
at (and propagating) the first early return value. -/
def eval_stmts_early (fuel : Nat) (st : Interp) :
    List ControlStmt → RunRes (Option Value) :=
  fun stmts =>
  match fuel with
  | 0 => .fuelOut
  | fuel + 1 =>
    match stmts with
    | [] => .ok none st
    | stmt :: rest =>
        match eval_control_stmt fuel st stmt with
        | .ok (some v) st1 => .ok (some v) st1
        | .ok none st1 => eval_stmts_early fuel st1 rest
        | .err e => .err e
        | .fuelOut => .fuelOut

/-- The `while` loop of `eval_control_stmt` (interpreter.rs lines 124-137):
test the condition, increment the counter, check the ceiling, run the body,
repeat. -/
def while_loop (fuel : Nat) (st : Interp) (w : WhileStmt) : RunRes (Option Value) :=
  match fuel with
  | 0 => .fuelOut
  | fuel + 1 =>
    match eval_control_expr_to_value fuel st w.condition with
    | .err e => .err e
    | .fuelOut => .fuelOut
    | .ok cond st1 =>
        if cond.isTruthy then
          let st2 := { st1 with iteration_count := st1.iteration_count + 1 }
          match st2.check_iteration_limit with
          | .error e => .err e
          | .ok () =>
              match eval_stmts_early fuel st2 w.body with
              | .ok (some v) st3 => .ok (some v) st3
              | .ok none st3 => while_loop fuel st3 w
              | .err e => .err e
              | .fuelOut => .fuelOut
        else .ok none st1

/-- The `for` loop of `eval_control_stmt` (interpreter.rs lines 160-175):
the loop runs while `(step>0 && i<end) || (step<0 && i>end)`; `i += step`
wraps like release-mode `i64` addition. -/
def for_loop (fuel : Nat) (st : Interp) (var : String) (body : List ControlStmt)
    (step end_int i : Int) : RunRes (Option Value) :=
  match fuel with
  | 0 => .fuelOut
  | fuel + 1 =>
    if (step > 0 ∧ i < end_int) ∨ (step < 0 ∧ i > end_int) then
      let st1 := { st with iteration_count := st.iteration_count + 1 }
      match st1.check_iteration_limit with
      | .error e => .err e
      | .ok () =>
          let st2 := st1.set_variable var (.int i)
          match eval_stmts_early fuel st2 body with
          | .ok (some v) st3 => .ok (some v) st3
          | .ok none st3 => for_loop fuel st3 var body step end_int (wrap64 (i + step))
          | .err e => .err e
          | .fuelOut => .fuelOut
    else .ok none st

/-- Model of `Interpreter::eval_data_expr` (interpreter.rs lines 248-277). -/
def eval_data_expr (fuel : Nat) (st : Interp) : DataExpr → RunRes Value :=
  fun expr =>
  match fuel with
  | 0 => .fuelOut
  | fuel + 1 =>
    match expr with
    | .number num =>
        match Value.fromNumber num with
        | .ok v => .ok v st
        | .error e => .err e
    | .identifier name =>
        match st.get_variable name with
        | .ok v => .ok v st
        | .error e => .err e
    | .add left right =>
        match eval_data_expr fuel st left with
        | .ok left_val st1 =>
            match eval_data_expr fuel st1 right with
            | .ok right_val st2 =>
                match left_val.add right_val with
                | .ok v => .ok v st2
                | .error e => .err e
            | .err e => .err e
            | .fuelOut => .fuelOut
        | .err e => .err e
        | .fuelOut => .fuelOut
    | .negate inner =>
        match eval_data_expr fuel st inner with
        | .ok v st1 =>
            match v.negate with
            | .ok nv => .ok nv st1
            | .error e => .err e
        | .err e => .err e
        | .fuelOut => .fuelOut
    | .functionCall call => eval_function_call fuel st call
    | .list elements =>
        match eval_exprs fuel st elements with
        | .ok vs st1 => .ok (.list vs) st1
        | .err e => .err e
        | .fuelOut => .fuelOut
    | .tuple elements =>
        match eval_exprs fuel st elements with
        | .ok vs st1 => .ok (.tuple vs) st1
        | .err e => .err e
        | .fuelOut => .fuelOut

/-- Left-to-right evaluation of an expression list (list/tuple elements,
print arguments, call arguments). -/
def eval_exprs (fuel : Nat) (st : Interp) : List DataExpr → RunRes (List Value) :=
  fun es =>
  match fuel with
  | 0 => .fuelOut
  | fuel + 1 =>
    match es with
    | [] => .ok [] st
    | e :: rest =>
        match eval_data_expr fuel st e with
        | .ok v st1 =>
            match eval_exprs fuel st1 rest with
            | .ok vs st2 => .ok (v :: vs) st2
            | .err err => .err err
            | .fuelOut => .fuelOut
        | .err err => .err err
        | .fuelOut => .fuelOut

/-- Model of `Interpreter::eval_control_expr_to_value` (interpreter.rs lines
279-324). -/
def eval_control_expr_to_value (fuel : Nat) (st : Interp) : ControlExpr → RunRes Value :=
  fun expr =>
  match fuel with
  | 0 => .fuelOut
  | fuel + 1 =>
    match expr with
    | .data data_expr => eval_data_expr fuel st data_expr
    | .comparison left op right =>
        match eval_data_expr fuel st left with
        | .ok left_val st1 =>
            match eval_data_expr fuel st1 right with
            | .ok right_val st2 =>
                let result :=
                  match op with
                  | .eq => left_val.eqOp right_val
                  | .ne => left_val.neOp right_val
                  | .lt => left_val.ltOp right_val
                  | .le => left_val.leOp right_val
                  | .gt => left_val.gtOp right_val
                  | .ge => left_val.geOp right_val
                match result with
                | .ok b => .ok (.bool b) st2
                | .error e => .err e
            | .err e => .err e
            | .fuelOut => .fuelOut
        | .err e => .err e
        | .fuelOut => .fuelOut
    | .logical left op right =>
        match eval_control_expr_to_value fuel st left with
        | .ok left_val st1 =>
            (match op with
             | .and =>
                 if ! left_val.isTruthy then .ok (.bool false) st1
                 else
                   match eval_control_expr_to_value fuel st1 right with
                   | .ok right_val st2 => .ok (.bool right_val.isTruthy) st2
                   | .err e => .err e
                   | .fuelOut => .fuelOut
             | .or =>
                 if left_val.isTruthy then .ok (.bool true) st1
                 else
                   match eval_control_expr_to_value fuel st1 right with
                   | .ok right_val st2 => .ok (.bool right_val.isTruthy) st2
                   | .err e => .err e
                   | .fuelOut => .fuelOut)
        | .err e => .err e
        | .fuelOut => .fuelOut
    | .not inner =>
        match eval_control_expr_to_value fuel st inner with
        | .ok v st1 => .ok (.bool (! v.isTruthy)) st1
        | .err e => .err e
        | .fuelOut => .fuelOut

/-- Model of `Interpreter::eval_function_call` (interpreter.rs lines
326-365): exact arity, arguments evaluated in the caller's scope, a fresh
frame, positional binding, body run until the first early value, frame
popped. -/
def eval_function_call (fuel : Nat) (st : Interp) (call : FunctionCall) : RunRes Value :=
  match fuel with
  | 0 => .fuelOut
  | fuel + 1 =>
    match call with
    | .mk name args =>
      match strFind st.functions name with
      | none => .err (.undefinedFunction name)
      | some func =>
          if func.params.length ≠ args.length then
            .err (.arityMismatch func.params.length args.length)
          else
            match eval_exprs fuel st args with
            | .err e => .err e
            | .fuelOut => .fuelOut
            | .ok arg_values st1 =>
                let st2 := { st1 with call_stack := [] :: st1.call_stack }
                let st3 := bind_params st2 func.params arg_values
                match run_body fuel st3 func.body with
                | .ok result st4 =>
                    .ok result { st4 with call_stack := st4.call_stack.tail }
                | .err e => .err e
                | .fuelOut => .fuelOut

/-- Positional parameter binding into the fresh frame (the zip loop in
`eval_function_call`). -/
def bind_params (st : Interp) : List Param → List Value → Interp
  | [], _ => st
  | _, [] => st
  | p :: ps, v :: vs => bind_params (st.set_variable p.name v) ps vs

/-- The body loop of `eval_function_call`: result is `Unit` unless a
statement yields an early value, which becomes the call's result. -/
def run_body (fuel : Nat) (st : Interp) : List ControlStmt → RunRes Value :=
  fun stmts =>
  match fuel with
  | 0 => .fuelOut
  | fuel + 1 =>
    match stmts with
    | [] => .ok .unit st
    | stmt :: rest =>
        match eval_control_stmt fuel st stmt with
        | .ok (some v) st1 => .ok v st1
        | .ok none st1 => run_body fuel st1 rest
        | .err e => .err e
        | .fuelOut => .fuelOut

/-- Model of `Interpreter::eval_reverse_block` (interpreter.rs lines
214-246): forward-only execution of a reverse block, with no trace recorded;
branch statements of a reversible `If` run through the full
`eval_control_stmt` and any early value is discarded. -/
def eval_reverse_stmts (fuel : Nat) (st : Interp) : List ReversibleStmt → RunRes Unit :=
  fun stmts =>
  match fuel with
  | 0 => .fuelOut
  | fuel + 1 =>
    match stmts with
    | [] => .ok () st
    | .addAssign target e :: rest =>
        match eval_data_expr fuel st e with
        | .err err => .err err
        | .fuelOut => .fuelOut
        | .ok value st1 =>
            match st1.get_variable target with
            | .error err => .err err
            | .ok current =>
                match current.add value with
                | .error err => .err err
                | .ok new_value =>
                    eval_reverse_stmts fuel (st1.set_variable target new_value) rest
    | .subAssign target e :: rest =>
        match eval_data_expr fuel st e with
        | .err err => .err err
        | .fuelOut => .fuelOut
        | .ok value st1 =>
            match st1.get_variable target with
            | .error err => .err err
            | .ok current =>
                match value.negate with
                | .error err => .err err
                | .ok neg_value =>
                    match current.add neg_value with
                    | .error err => .err err
                    | .ok new_value =>
                        eval_reverse_stmts fuel (st1.set_variable target new_value) rest
    | .ifStmt (.mk condition then_branch else_branch) :: rest =>
        match eval_control_expr_to_value fuel st condition with
        | .err e => .err e
        | .fuelOut => .fuelOut
        | .ok cond st1 =>
            let branch_run :=
              if cond.isTruthy then eval_stmts_discard fuel st1 then_branch
              else
                match else_branch with
                | some else_stmts => eval_stmts_discard fuel st1 else_stmts
                | none => .ok () st1
            match branch_run with
            | .ok () st2 => eval_reverse_stmts fuel st2 rest
            | .err e => .err e
            | .fuelOut => .fuelOut

/-- The branch loops inside `eval_reverse_block`: each statement's early
value is discarded (`self.eval_control_stmt(stmt)?;`). -/
def eval_stmts_discard (fuel : Nat) (st : Interp) : List ControlStmt → RunRes Unit :=
  fun stmts =>
  match fuel with
  | 0 => .fuelOut
  | fuel + 1 =>
    match stmts with
    | [] => .ok () st
    | stmt :: rest =>
        match eval_control_stmt fuel st stmt with
        | .ok _ st1 => eval_stmts_discard fuel st1 rest
        | .err e => .err e
        | .fuelOut => .fuelOut

end

mutual

/-- Model of `Interpreter::eval_top_level` (interpreter.rs lines 67-88). -/
def eval_top_level (fuel : Nat) (st : Interp) : TopLevel → RunRes Unit :=
  fun item =>
  match fuel with
  | 0 => .fuelOut
  | fuel + 1 =>
    match item with
    | .module (.mk _ body) => eval_top_levels fuel st body
    | .imp _ => .ok () st
    | .function f => .ok () { st with functions := (f.name, f) :: st.functions }
    | .control stmt =>
        match eval_control_stmt fuel st stmt with
        | .ok _ st1 => .ok () st1
        | .err e => .err e
        | .fuelOut => .fuelOut

/-- Item fold for `Interpreter::run` and nested modules. -/
def eval_top_levels (fuel : Nat) (st : Interp) : List TopLevel → RunRes Unit :=
  fun items =>
  match fuel with
  | 0 => .fuelOut
  | fuel + 1 =>
    match items with
    | [] => .ok () st
    | item :: rest =>
        match eval_top_level fuel st item with
        | .ok () st1 => eval_top_levels fuel st1 rest
        | .err e => .err e
        | .fuelOut => .fuelOut

end

/-- Model of `Interpreter::run` (interpreter.rs lines 60-65). -/
def Interp.run (fuel : Nat) (st : Interp) (program : Program) : RunRes Unit :=
  eval_top_levels fuel st program.statements

/-! Predicates used to state the claims (derived from the claims' wording,
not from any source function). -/

mutual

/-- Whether a statement contains a `for` or `while` loop anywhere, including
inside if branches, nested blocks, and reversible-if branches. -/
def stmtHasLoop : ControlStmt → Bool
  | .whileStmt _ => true
  | .forStmt _ => true
  | .ifStmt (.mk _ then_branch else_branch) =>
      stmtsHaveLoop then_branch ||
        (match else_branch with
         | some else_stmts => stmtsHaveLoop else_stmts
         | none => false)
  | .block stmts => stmtsHaveLoop stmts
  | .reverseBlock (.mk body) => revStmtsHaveLoop body
  | _ => false

/-- Whether any statement of a list contains a loop. -/
def stmtsHaveLoop : List ControlStmt → Bool
  | [] => false
  | stmt :: rest => stmtHasLoop stmt || stmtsHaveLoop rest

/-- Whether a single reversible statement contains a loop (only the branches
of a reversible `If` can). -/
def revStmtHasLoop : ReversibleStmt → Bool
  | .ifStmt (.mk _ then_branch else_branch) =>
      stmtsHaveLoop then_branch ||
        (match else_branch with
         | some else_stmts => stmtsHaveLoop else_stmts
         | none => false)
  | _ => false

/-- Whether any reversible statement of a list contains a loop. -/
def revStmtsHaveLoop : List ReversibleStmt → Bool
  | [] => false
  | stmt :: rest => revStmtHasLoop stmt || revStmtsHaveLoop rest

end

/-- Whether a branch holds a plain assignment statement. -/
def branchHasAssign (stmts : List ControlStmt) : Bool :=
  stmts.any fun s =>
    match s with
    | .assignment _ => true
    | _ => false

/-- Whether a reversible statement's if branches hold no plain assignments. -/
def revStmtBranchesAssignFree : ReversibleStmt → Bool
  | .ifStmt (.mk _ then_branch else_branch) =>
      ! branchHasAssign then_branch &&
        (match else_branch with
         | some else_stmts => ! branchHasAssign else_stmts
         | none => true)
  | _ => true

/-- Whether no if branch of a reverse block holds a plain assignment. -/
def blockBranchesAssignFree (b : ReverseBlock) : Bool :=
  b.body.all revStmtBranchesAssignFree

/-- The three exactly-representable numeric kinds named by the round-trip
claim. -/
inductive NumKind where
  | int
  | rational
  | complex
deriving DecidableEq, Repr

/-- Whether a value is of the given kind; an `Int` value must also be in the
`i64` range (every Rust `Value::Int` is). -/
def Value.hasKind (v : Value) (k : NumKind) : Bool :=
  match v, k with
  | .int n, .int => fitsI64 n
  | .rational _, .rational => true
  | .complex _, .complex => true
  | _, _ => false

/-- Whether every value of an environment is of the given kind. -/
def envAllKind (k : NumKind) (env : Env) : Bool :=
  env.all fun p => p.2.hasKind k

/-- Whether a number literal is of the given kind (with the `i64` range
constraint for `Int`). -/
def numberHasKind (num : Number) (k : NumKind) : Bool :=
  match num, k with
  | .int n, .int => fitsI64 n
  | .rational _ _, .rational => true
  | .complex _ _, .complex => true
  | _, _ => false

mutual

/-- Whether every number literal of a Data expression is of the given kind
(function calls, lists and tuples are unconstrained: they are runtime errors
in reversible context). -/
def dataExprLitsKind (k : NumKind) : DataExpr → Bool
  | .number num => numberHasKind num k
  | .identifier _ => true
  | .add left right => dataExprLitsKind k left && dataExprLitsKind k right
  | .negate inner => dataExprLitsKind k inner
  | .functionCall _ => true
  | .list _ => true
  | .tuple _ => true

end

/-- Whether the right-hand side of a reversible AddAssign/SubAssign has
literals only of the given kind (ifs are unconstrained: their branches may
hold no assignment under the branch condition used with this predicate). -/
def revStmtExprsKind (k : NumKind) : ReversibleStmt → Bool
  | .addAssign _ e => dataExprLitsKind k e
  | .subAssign _ e => dataExprLitsKind k e
  | .ifStmt _ => true

/-- Whether every AddAssign/SubAssign right-hand side of a reverse block has
literals only of the given kind. -/
def blockExprsKind (k : NumKind) (b : ReverseBlock) : Bool :=
  b.body.all (revStmtExprsKind k)

/-- The pairs on which the claim asserts `Value::add` can succeed: same-kind
pairs and the three coercion pairs in either order. -/
def addAllowedPair : Value → Value → Bool
  | .int _, .int _ => true
  | .float _, .float _ => true
  | .rational _, .rational _ => true
  | .complex _, .complex _ => true
  | .hex _, .hex _ => true
  | .binary _, .binary _ => true
  | .symbolic _, .symbolic _ => true
  | .string _, .string _ => true
  | .int _, .float _ => true
  | .float _, .int _ => true
  | .int _, .rational _ => true
  | .rational _, .int _ => true
  | .float _, .complex _ => true
  | .complex _, .float _ => true
  | _, _ => false

mutual

/-- Whether a reverse block contains (directly, or inside a nested reverse
block within an if branch) an AddAssign/SubAssign whose target occurs in its
own right-hand side — the set `check_reversibility` is claimed to reject
exactly. -/
def blockHasSelfRef : ReverseBlock → Bool
  | .mk body => revStmtsHaveSelfRef body

/-- Self-reference in a single reversible statement: the target of an
AddAssign/SubAssign occurring in its own right-hand side, or such a statement
inside a nested reverse block of an if branch. -/
def revStmtSelfRef1 : ReversibleStmt → Bool
  | .addAssign target e => expr_contains_var e target
  | .subAssign target e => expr_contains_var e target
  | .ifStmt (.mk _ then_branch else_branch) =>
      branchHasSelfRef then_branch ||
        (match else_branch with
         | some else_stmts => branchHasSelfRef else_stmts
         | none => false)

/-- Self-reference search over a reversible-statement list. -/
def revStmtsHaveSelfRef : List ReversibleStmt → Bool
  | [] => false
  | stmt :: rest => revStmtSelfRef1 stmt || revStmtsHaveSelfRef rest

/-- Self-reference search over the nested reverse blocks of an if branch. -/
def branchHasSelfRef : List ControlStmt → Bool
  | [] => false
  | .reverseBlock b :: rest => blockHasSelfRef b || branchHasSelfRef rest
  | _ :: rest => branchHasSelfRef rest

end

/-- Observational equality of environments: the same lookup answer for every
name. -/
def EnvEquiv (e1 e2 : Env) : Prop := ∀ n, envFind e1 n = envFind e2 n

/-- Every function registered in the table has a loop-free body. -/
def loopFreeFns (fns : List (String × FunctionDecl)) : Prop :=
  ∀ name f, strFind fns name = some f → stmtsHaveLoop f.body = false

/-- Postcondition for one fueled evaluation step: if it returned `ok`, the
iteration counter and the function table are unchanged relative to `st`
(errors and fuel exhaustion are unconstrained). -/
def CountKept {α : Type} (st : Interp) : RunRes α → Prop
  | .ok _ st1 => st1.iteration_count = st.iteration_count ∧ st1.functions = st.functions
  | .err _ => True
  | .fuelOut => True

/-- A loop-free function returning `7`, used to instantiate the function-call
part of the governor claim. -/
def fnSeven : FunctionDecl := ⟨"seven", [], none, .impure, [.ret (some (.number (.int 7)))]⟩

/-- An interpreter state whose only function is `seven`. -/
def stCall : Interp := ⟨[], [("seven", fnSeven)], [], 0, []⟩

/-- The call `seven()`. -/
def callSeven : FunctionCall := .mk "seven" []


/-! Concrete programs and states used below to instantiate the theorems. -/

/-- A reversible block whose If branch holds a plain assignment `x = 0`. -/
def blockIfAssign : ReverseBlock :=
  ⟨[.ifStmt (.mk (.data (.number (.int 1)))
      [.assignment ⟨"x", .data (.number (.int 0))⟩] none)]⟩

/-- The reversible block `x += 1/2`. -/
def blockAddRat : ReverseBlock := ⟨[.addAssign "x" (.number (.rational 1 2))]⟩

/-- The reversible block `x += x`. -/
def blockXplusX : ReverseBlock := ⟨[.addAssign "x" (.identifier "x")]⟩

/-- The reversible block `x += y`. -/
def blockXplusY : ReverseBlock := ⟨[.addAssign "x" (.identifier "y")]⟩

/-- The reversible block `x += 5`. -/
def blockAddFive : ReverseBlock := ⟨[.addAssign "x" (.number (.int 5))]⟩

/-- A reversible interpreter holding only `x = 5`. -/
def stIfAssign : ReversibleInterpreter := .with_state [("x", .int 5)]

/-- A reversible interpreter holding only `x = 1`. -/
def stAddRat : ReversibleInterpreter := .with_state [("x", .int 1)]

/-- A reversible interpreter holding only `x = 10`. -/
def stAddFive : ReversibleInterpreter := .with_state [("x", .int 10)]

/-- A reversible interpreter that ran `x += 1` forward from `x = 0` and then
had `x` overwritten with a boolean through the public `set`, so that replaying
the trace fails. -/
def stC8bad : ReversibleInterpreter :=
  (((ReversibleInterpreter.with_state [("x", .int 0)]).execute_forward
      ⟨[.addAssign "x" (.number (.int 1))]⟩).1).set "x" (.bool true)

/-- A reversible interpreter holding `x = 5` with one recorded `x += 1`. -/
def stC8good : ReversibleInterpreter := ⟨[("x", .int 5)], ⟨[.addAssign "x" (.int 1)]⟩⟩

/-- The statement `for i in 0..10 step 0 {}`. -/
def forStepZero : ControlStmt :=
  .forStmt (.mk "i" ⟨.number (.int 0), .number (.int 10), some (.number (.int 0))⟩ [])

/-- The statement `while (1) {}` (a constant-truthy condition, empty body). -/
def whileTrueEmpty : WhileStmt := .mk (.data (.number (.int 1))) []

/-- A function with no return annotation whose body is `return 5`. -/
def funcUnannotatedRet : FunctionDecl :=
  ⟨"f", [], none, .impure, [.ret (some (.number (.int 5)))]⟩

/-- A `@total` function whose body is a `while` loop. -/
def funcTotalLoop : FunctionDecl := ⟨"bad", [], none, .total, [.whileStmt whileTrueEmpty]⟩

/-- A program declaring only `funcTotalLoop`. -/
def progTotalLoop : Program := ⟨[.function funcTotalLoop]⟩

/-! Helper lemmas shared by the claim theorems. -/

theorem envFind_insert_self (e : Env) (k : String) (v : Value) :
    envFind (envInsert e k v) k = some v := by
  simp [envInsert, envFind]

theorem envFind_insert_ne (e : Env) (k : String) (v : Value) (n : String) (h : k ≠ n) :
    envFind (envInsert e k v) n = envFind e n := by
  simp [envInsert, envFind, h]

theorem inverseRev_append (xs ys : List RecordedOp) :
    RecordedOp.inverseRev (xs ++ ys)
      = RecordedOp.inverseRev ys ++ RecordedOp.inverseRev xs := by
  induction xs with
  | nil => simp [RecordedOp.inverseRev]
  | cons x xs ih => simp [RecordedOp.inverseRev, ih]

/-! C7: the purity `combine` lattice. -/

/-- C7: `PurityLevel::combine` takes the worse of its two arguments:
`combine(Total, Total) = Total`, `combine(Total, Pure) = combine(Pure,
Total) = Pure`, `combine(x, Impure) = combine(Impure, x) = Impure` for every
level `x`, and `combine` is commutative. -/
theorem purity_combine_worst :
    PurityLevel.combine .total .total = .total ∧
    PurityLevel.combine .total .pure = .pure ∧
    PurityLevel.combine .pure .total = .pure ∧
    (∀ x : PurityLevel,
      PurityLevel.combine x .impure = .impure ∧ PurityLevel.combine .impure x = .impure) ∧
    (∀ a b : PurityLevel, PurityLevel.combine a b = PurityLevel.combine b a) := by
  refine ⟨rfl, rfl, rfl, fun x => ?_, fun a b => ?_⟩
  · cases x <;> exact ⟨rfl, rfl⟩
  · cases a <;> cases b <;> rfl

/-! C9: runtime `Value::add` versus the static `Type::add_result` table. -/

/-- C9: `Value::add` can succeed only on the same-kind pairs and the mixed
pairs Int–Float, Int–Rational, Float–Complex (either order); on every other
pair it returns a type error — including Hex–Int, Binary–Int and Int–Complex,
which the static `Type::add_result` table accepts with result types Int, Int
and Complex. -/
theorem value_add_pairs :
    (∀ a b : Value, (∃ v, a.add b = .ok v) → addAllowedPair a b = true) ∧
    (∀ a b : Value, addAllowedPair a b = false →
      ∃ msg, a.add b = .error (.typeError msg)) ∧
    Ty.add_result .hex .int = some .int ∧
    Ty.add_result .binary .int = some .int ∧
    Ty.add_result .int .complex = some .complex := by
  refine ⟨fun a b => ?_, fun a b => ?_, rfl, rfl, rfl⟩
  · cases a <;> cases b <;> simp [addAllowedPair, Value.add]
  · cases a <;> cases b <;> simp [addAllowedPair, Value.add]

/-- C9 witness: `Hex 1 + Int 2` is outside the allowed pairs and indeed
returns a type error at runtime. -/
theorem value_add_pairs_witness :
    ∃ msg, (Value.hex 1).add (Value.int 2) = .error (.typeError msg) :=
  value_add_pairs.2.1 (Value.hex 1) (Value.int 2) rfl

/-! C10: `RecordedOp::inverse` is an involution. -/

/-- C10: for every recorded operation, `op.inverse().inverse() = op`,
including `If` operations with arbitrarily nested branch op lists. -/
theorem recorded_op_inverse_involution : ∀ op : RecordedOp, op.inverse.inverse = op :=
  RecordedOp.inverse.induct (fun op => op.inverse.inverse = op)
    (fun l => RecordedOp.inverseRev (RecordedOp.inverseRev l) = l)
    (fun _ _ => rfl) (fun _ _ => rfl)
    (fun c th el ih1 ih2 => by simp [RecordedOp.inverse, ih1, ih2])
    rfl
    (fun op rest ihrest ihop => by
      simp [RecordedOp.inverseRev, inverseRev_append, ihrest, ihop])

/-! C8: `execute_reverse` clears the trace and a second call is a no-op. -/

/-- C8 (amended): after any successful call to `execute_reverse` the recorded
trace is empty, so a second call with no intervening forward execution
returns `Ok` and leaves the state — every variable included — unchanged. -/
theorem execute_reverse_one_shot (st st' : ReversibleInterpreter)
    (h : st.execute_reverse = (st', none)) :
    st'.trace.operations = [] ∧ st'.execute_reverse = (st', none) := by
  cases happ : ReversibleInterpreter.apply_operations st.vars st.trace.reverse_operations with
  | mk env err =>
    simp only [ReversibleInterpreter.execute_reverse, happ] at h
    cases err with
    | none =>
        simp at h
        have hst : st' = ⟨env, ReverseTrace.new⟩ := h.symm
        subst hst
        exact ⟨rfl, rfl⟩
    | some e => simp at h

/-- C8 witness: a successful reversal of `x += 1` from `x = 5` leaves an
empty trace and a second `execute_reverse` is an `Ok` no-op. -/
theorem execute_reverse_one_shot_witness :
    (ReversibleInterpreter.mk [("x", .int 4), ("x", .int 5)] ⟨[]⟩).trace.operations = [] ∧
    (ReversibleInterpreter.mk [("x", .int 4), ("x", .int 5)] ⟨[]⟩).execute_reverse
      = (⟨[("x", .int 4), ("x", .int 5)], ⟨[]⟩⟩, none) :=
  execute_reverse_one_shot stC8good ⟨[("x", .int 4), ("x", .int 5)], ⟨[]⟩⟩ rfl

/-- C8 counterexample: after a failing `execute_reverse` (the replay hits a
type error because `x` was overwritten with a boolean), the trace is not
empty and a second call does not return `Ok`. -/
theorem execute_reverse_counterexample :
    (ReversibleInterpreter.execute_reverse stC8bad).1.trace.operations ≠ [] ∧
    (ReversibleInterpreter.execute_reverse
      (ReversibleInterpreter.execute_reverse stC8bad).1).2 ≠ none := by
  constructor
  · have h : (ReversibleInterpreter.execute_reverse stC8bad).1.trace.operations
        = [.addAssign "x" (.int 1)] := rfl
    rw [h]; simp
  · have h : (ReversibleInterpreter.execute_reverse
        (ReversibleInterpreter.execute_reverse stC8bad).1).2
        = some (.typeError "Cannot add these values") := rfl
    rw [h]; simp

/-! C3: a `for` loop whose step evaluates to zero. -/

/-- C3 (amended): when the start and end evaluate to integers and the step
expression evaluates to the integer 0, the loop guard
`(step>0 && i<end) || (step<0 && i>end)` is false immediately, so the loop
body runs zero times and the statement completes normally in the state left
by evaluating the range expressions — no maximum-iterations error. -/
theorem for_step_zero_completes (fuel : Nat) (st st1 st2 st3 : Interp) (var : String)
    (range : RangeExpr) (body : List ControlStmt) (s e : Int) (step_expr : DataExpr)
    (hcount : st.iteration_count ≤ MAX_ITERATIONS)
    (hstart : eval_data_expr fuel st range.start = .ok (.int s) st1)
    (hstop : eval_data_expr fuel st1 range.stop = .ok (.int e) st2)
    (hstep : range.step = some step_expr)
    (hstepv : eval_data_expr fuel st2 step_expr = .ok (.int 0) st3)
    (hfuel : 1 ≤ fuel) :
    eval_control_stmt (fuel + 1) st (.forStmt (.mk var range body)) = .ok none st3 := by
  have hlimit : st.check_iteration_limit = .ok () := by
    simp [Interp.check_iteration_limit, Nat.not_lt.mpr hcount]
  rw [eval_control_stmt]
  rw [hlimit]
  simp only [hstart, hstop, hstep, hstepv]
  obtain ⟨g, rfl⟩ : ∃ g, fuel = g + 1 := ⟨fuel - 1, by omega⟩
  rw [for_loop]
  simp

/-- C3 witness for the amended statement: `for i in 0..10 step 0 {}` from a
fresh interpreter returns normally with the state untouched. -/
theorem for_step_zero_completes_witness :
    eval_control_stmt 6 Interp.new forStepZero = .ok none Interp.new :=
  for_step_zero_completes 5 Interp.new Interp.new Interp.new Interp.new "i"
    ⟨.number (.int 0), .number (.int 10), some (.number (.int 0))⟩ [] 0 10
    (.number (.int 0)) (by simp [Interp.new, MAX_ITERATIONS]) rfl rfl rfl rfl (by omega)

/-- C3 counterexample to the claim as stated: the step-zero loop does not
raise the maximum-iterations error; it returns `Ok` without touching the
state. -/
theorem for_step_zero_counterexample :
    eval_control_stmt 10 Interp.new forStepZero = .ok none Interp.new ∧
    eval_control_stmt 10 Interp.new forStepZero ≠ .err .maxIterationsExceeded := by
  constructor
  · rfl
  · intro h
    have h2 : RunRes.ok (α := Option Value) none Interp.new = .err .maxIterationsExceeded := by
      rw [← h]; rfl
    exact RunRes.noConfusion h2

/-! C6: `check_reversibility` rejects exactly the self-referential updates. -/

theorem jbind_ok {α β : Type} (a : α) (f : α → JResult β) :
    (Except.ok a >>= f : JResult β) = f a := rfl

theorem jbind_error {α β : Type} (e : JtvError) (f : α → JResult β) :
    (Except.error e >>= f : JResult β) = .error e := rfl

theorem step_iff {x y : JResult Unit} {a b : Bool}
    (hx : (x = .ok ()) ↔ (a = false)) (hy : (y = .ok ()) ↔ (b = false)) :
    ((x >>= fun _ => y) = .ok ()) ↔ ((a || b) = false) := by
  cases x with
  | ok u =>
      cases u
      have ha : a = false := hx.mp rfl
      rw [jbind_ok]
      simp [ha, hy]
  | error e =>
      have ha : a = true := by
        cases hv : a
        · exact absurd (hx.mpr hv) (fun hc => Except.noConfusion hc)
        · rfl
      rw [jbind_error]
      simp [ha]

theorem ok_ok_iff : ((Except.ok () : JResult Unit) = .ok ()) ↔ ((false : Bool) = false) := by
  simp

mutual

theorem check_reversibility_iff :
    ∀ b : ReverseBlock, (check_reversibility b = .ok ()) ↔ (blockHasSelfRef b = false)
  | .mk body => by
      simp only [check_reversibility, blockHasSelfRef]
      exact check_reversible_stmts_iff body
termination_by b => sizeOf b

theorem check_reversible_stmts_iff :
    ∀ l : List ReversibleStmt,
      (check_reversible_stmts l = .ok ()) ↔ (revStmtsHaveSelfRef l = false)
  | [] => by simp [check_reversible_stmts, revStmtsHaveSelfRef]
  | s :: rest => by
      simp only [check_reversible_stmts, revStmtsHaveSelfRef]
      exact step_iff (check_reversible_stmt_iff s) (check_reversible_stmts_iff rest)
termination_by l => sizeOf l

theorem check_reversible_stmt_iff :
    ∀ s : ReversibleStmt,
      (check_reversible_stmt s = .ok ()) ↔ (revStmtSelfRef1 s = false)
  | .addAssign target e => by
      by_cases h : expr_contains_var e target <;>
        simp [check_reversible_stmt, revStmtSelfRef1, h]
  | .subAssign target e => by
      by_cases h : expr_contains_var e target <;>
        simp [check_reversible_stmt, revStmtSelfRef1, h]
  | .ifStmt (.mk c then_branch none) => by
      simp only [check_reversible_stmt, revStmtSelfRef1]
      exact step_iff (check_branch_iff then_branch) ok_ok_iff
  | .ifStmt (.mk c then_branch (some eb)) => by
      simp only [check_reversible_stmt, revStmtSelfRef1]
      exact step_iff (check_branch_iff then_branch) (check_branch_iff eb)
termination_by s => sizeOf s

theorem check_branch_iff :
    ∀ l : List ControlStmt,
      (check_branch_reverse_blocks l = .ok ()) ↔ (branchHasSelfRef l = false)
  | [] => by simp [check_branch_reverse_blocks, branchHasSelfRef]
  | .reverseBlock b :: rest => by
      simp only [check_branch_reverse_blocks, branchHasSelfRef]
      exact step_iff (check_reversibility_iff b) (check_branch_iff rest)
  | .assignment a :: rest => by
      simpa [check_branch_reverse_blocks, branchHasSelfRef] using check_branch_iff rest
  | .ifStmt i :: rest => by
      simpa [check_branch_reverse_blocks, branchHasSelfRef] using check_branch_iff rest
  | .whileStmt w :: rest => by
      simpa [check_branch_reverse_blocks, branchHasSelfRef] using check_branch_iff rest
  | .forStmt f :: rest => by
      simpa [check_branch_reverse_blocks, branchHasSelfRef] using check_branch_iff rest
  | .ret e :: rest => by
      simpa [check_branch_reverse_blocks, branchHasSelfRef] using check_branch_iff rest
  | .print es :: rest => by
      simpa [check_branch_reverse_blocks, branchHasSelfRef] using check_branch_iff rest
  | .block stmts :: rest => by
      simpa [check_branch_reverse_blocks, branchHasSelfRef] using check_branch_iff rest
termination_by l => sizeOf l

end

/-- C6: `check_reversibility` returns an error for a reversible block exactly
when some AddAssign or SubAssign in it (including inside nested reverse
blocks within if branches) has a right-hand Data expression in which the
target name occurs, the occurrence search recursing through Add, Negate,
function-call arguments, list elements and tuple elements; in particular it
rejects `x += x` and accepts `x += y`. -/
theorem check_reversibility_exact :
    (∀ block : ReverseBlock,
      (∃ e, check_reversibility block = .error e) ↔ blockHasSelfRef block = true) ∧
    (∀ left right var, expr_contains_var (.add left right) var
        = (expr_contains_var left var || expr_contains_var right var)) ∧
    (∀ inner var, expr_contains_var (.negate inner) var = expr_contains_var inner var) ∧
    (∀ name args var, expr_contains_var (.functionCall (.mk name args)) var
        = expr_list_contains_var args var) ∧
    (∀ elems var, expr_contains_var (.list elems) var = expr_list_contains_var elems var) ∧
    (∀ elems var, expr_contains_var (.tuple elems) var = expr_list_contains_var elems var) ∧
    (∀ name var, expr_contains_var (.identifier name) var = (name == var)) ∧
    (∃ e, check_reversibility blockXplusX = .error e) ∧
    check_reversibility blockXplusY = .ok () := by
  refine ⟨fun block => ?_, ?_, ?_, ?_, ?_, ?_, ?_, ?_, ?_⟩
  · have h := check_reversibility_iff block
    cases hr : check_reversibility block with
    | ok u =>
        cases u
        have hb : blockHasSelfRef block = false := h.mp hr
        simp [hb]
    | error e =>
        have hb : blockHasSelfRef block = true := by
          cases hv : blockHasSelfRef block
          · rw [h.mpr hv] at hr; exact Except.noConfusion hr
          · rfl
        simp [hb]
  · intro l r v; simp [expr_contains_var]
  · intro i v; simp [expr_contains_var]
  · intro n a v; simp [expr_contains_var]
  · intro es v; simp [expr_contains_var]
  · intro es v; simp [expr_contains_var]
  · intro n v; simp [expr_contains_var]
  · exact ⟨.runtimeError "Variable cannot appear in its own reversible assignment", rfl⟩
  · rfl

/-- C6 witness: the empty reverse block has no self-reference and the
equivalence confirms it is not rejected. -/
theorem check_reversibility_exact_witness :
    ¬ ∃ e, check_reversibility ⟨[]⟩ = .error e := fun h => by
  simpa [blockHasSelfRef, revStmtsHaveSelfRef] using
    (check_reversibility_exact.1 ⟨[]⟩).mp h

/-! C2: the default for an unannotated return type. -/

theorem bindParams_expected_return (tc : TypeChecker) :
    ∀ ps : List Param, (check_function.bindParams tc ps).expected_return = tc.expected_return := by
  intro ps
  induction ps generalizing tc with
  | nil => rfl
  | cons p rest ih => simpa [check_function.bindParams] using ih _

set_option maxHeartbeats 1000000 in
theorem unify_unit_eq_none (t : Ty) (hunit : Ty.beq t .unit = false)
    (hany : Ty.beq t .any = false) : unify .unit t = none := by
  have hbeq : Ty.beq .unit t = false := by
    cases t <;> simp_all [Ty.beq]
  cases t <;> simp [unify, hbeq] <;> simp_all [Ty.beq]

/-- C2 (amended): for every function declaration whose return type is
unannotated, the type checker registers and uses the return type `Unit`, not
`Any`: the registered signature carries `Unit`; `Unit` unifies only with
`Unit` and `Any`; and a body whose return statement infers a non-Unit,
non-Any type fails the return-type check. -/
theorem unannotated_return_is_unit :
    (∀ (tc : TypeChecker) (func : FunctionDecl), func.return_type = none →
      (register_function tc func).env.get_func func.name
        = some (paramTypes func.params, Ty.unit, func.purity)) ∧
    (unify .unit .unit = some .unit ∧ unify .unit .any = some .unit) ∧
    (∀ t : Ty, Ty.beq t .unit = false → Ty.beq t .any = false → unify .unit t = none) ∧
    (∀ (tc : TypeChecker) (func : FunctionDecl) (e : DataExpr) (rest : List ControlStmt)
      (t : Ty),
      func.return_type = none →
      func.body = .ret (some e) :: rest →
      infer_data_expr
        (check_function.bindParams { tc with expected_return := some .unit } func.params) e
        = .ok t →
      Ty.beq t .unit = false → Ty.beq t .any = false →
      ∃ msg, check_function tc func = .error (.typeError msg)) := by
  refine ⟨fun tc func h => ?_, ⟨by simp [unify, Ty.beq], by simp [unify, Ty.beq]⟩,
    unify_unit_eq_none, ?_⟩
  · simp [register_function, TypeEnv.set_func, TypeEnv.get_func, strFind, declaredReturnType, h]
  · intro tc func e rest t hret hbody hinfer hunit hany
    have hdecl : declaredReturnType func = .unit := by
      simp [declaredReturnType, hret]
    have hexp : (check_function.bindParams { tc with expected_return := some Ty.unit }
        func.params).expected_return = some .unit := by
      rw [bindParams_expected_return]
    have hun := unify_unit_eq_none t hunit hany
    refine ⟨"Return type mismatch. " ++ type_suggestion .unit t, ?_⟩
    simp only [check_function, hdecl, hbody, check_function.walkBody,
      check_stmts_with_return, check_control_stmt_with_return, hinfer, hexp, hun,
      jbind_ok, jbind_error]

/-- C2 witness: the function `fn f() { return 5 }` (no return annotation) is
rejected by `check_function`. -/
theorem unannotated_return_is_unit_witness :
    ∃ msg, check_function TypeChecker.new funcUnannotatedRet = .error (.typeError msg) :=
  unannotated_return_is_unit.2.2.2 TypeChecker.new funcUnannotatedRet
    (.number (.int 5)) [] .int rfl rfl rfl rfl rfl

/-- C2 counterexample to the claim as stated: the registered return type of
the unannotated function is `Unit`, not `Any`, and its body `return 5` fails
— rather than passes — the return-type check. -/
theorem unannotated_return_counterexample :
    (register_function TypeChecker.new funcUnannotatedRet).env.get_func "f"
      = some ([], Ty.unit, Purity.impure) ∧
    (register_function TypeChecker.new funcUnannotatedRet).env.get_func "f"
      ≠ some ([], Ty.any, Purity.impure) ∧
    check_function TypeChecker.new funcUnannotatedRet
      = .error (.typeError "Return type mismatch. Cannot convert these types") := by
  refine ⟨rfl, ?_, rfl⟩
  intro h
  have h2 : some (([] : List Ty), Ty.unit, Purity.impure)
      = some (([] : List Ty), Ty.any, Purity.impure) := by
    rw [← h]; rfl
  simp at h2


/-! C4: a total-annotated function containing a loop fails the purity check. -/

theorem combine_eq_total_iff (a b : PurityLevel) :
    a.combine b = .total ↔ (a = .total ∧ b = .total) := by
  cases a <;> cases b <;> simp [PurityLevel.combine]

theorem pure_combine_ne_total (x : PurityLevel) : PurityLevel.pure.combine x ≠ .total := by
  cases x <;> simp [PurityLevel.combine]

theorem analyze_data_expr_ok (fp : FuncPurity) :
    ∀ e, ∃ l, analyze_data_expr fp e = .ok l :=
  analyze_data_expr.induct fp (fun e => ∃ l, analyze_data_expr fp e = .ok l)
    (fun lvl es => ∃ l, analyze_expr_list_from fp lvl es = .ok l)
    (fun _ => ⟨.total, by simp [analyze_data_expr]⟩)
    (fun _ => ⟨.total, by simp [analyze_data_expr]⟩)
    (fun left right ih1 ih2 => by
      obtain ⟨l1, h1⟩ := ih1
      obtain ⟨l2, h2⟩ := ih2
      exact ⟨l1.combine l2, by simp only [analyze_data_expr, h1, h2, jbind_ok]⟩)
    (fun inner ih => by
      obtain ⟨l, h⟩ := ih
      exact ⟨l, by simpa [analyze_data_expr] using h⟩)
    (fun name args ih => by
      obtain ⟨l, h⟩ := ih
      exact ⟨l, by simp only [analyze_data_expr]; exact h⟩)
    (fun elems ih => by
      obtain ⟨l, h⟩ := ih
      exact ⟨l, by simpa [analyze_data_expr] using h⟩)
    (fun elems ih => by
      obtain ⟨l, h⟩ := ih
      exact ⟨l, by simpa [analyze_data_expr] using h⟩)
    (fun level => ⟨level, by simp [analyze_expr_list_from]⟩)
    (fun level e rest ih1 ih2 => by
      obtain ⟨l1, h1⟩ := ih1
      obtain ⟨l2, h2⟩ := ih2 l1
      exact ⟨l2, by simp only [analyze_expr_list_from, h1, h2, jbind_ok]⟩)

theorem analyze_control_expr_ok (fp : FuncPurity) :
    ∀ ce, ∃ l, analyze_control_expr fp ce = .ok l := by
  intro ce
  induction ce with
  | data d => simpa [analyze_control_expr] using analyze_data_expr_ok fp d
  | comparison left op right =>
      rcases analyze_data_expr_ok fp left with ⟨l1, h1⟩
      rcases analyze_data_expr_ok fp right with ⟨l2, h2⟩
      exact ⟨l1.combine l2, by simp only [analyze_control_expr, h1, h2, jbind_ok]⟩
  | logical left op right ihl ihr =>
      rcases ihl with ⟨l1, h1⟩
      rcases ihr with ⟨l2, h2⟩
      exact ⟨l1.combine l2, by simp only [analyze_control_expr, h1, h2, jbind_ok]⟩
  | not inner ih =>
      rcases ih with ⟨l, h⟩
      exact ⟨l, by simpa [analyze_control_expr] using h⟩

theorem analyze_stmt_loop_nontotal (fp : FuncPurity) :
    ∀ stmt, ∃ l, analyze_stmt fp stmt = .ok l ∧ (stmtHasLoop stmt = true → l ≠ .total) :=
  analyze_stmt.induct fp
    (fun stmts => ∃ l, analyze_body fp stmts = .ok l ∧
      (stmtsHaveLoop stmts = true → l ≠ .total))
    (fun level stmts => ∃ l, analyze_body_from fp level stmts = .ok l ∧
      ((level ≠ .total ∨ stmtsHaveLoop stmts = true) → l ≠ .total))
    (fun stmt => ∃ l, analyze_stmt fp stmt = .ok l ∧ (stmtHasLoop stmt = true → l ≠ .total))
    (fun level stmts => ∃ l, analyze_rev_body_from fp level stmts = .ok l ∧
      ((level ≠ .total ∨ revStmtsHaveLoop stmts = true) → l ≠ .total))
    (fun stmt => ∃ l, analyze_reversible_stmt fp stmt = .ok l ∧
      (revStmtHasLoop stmt = true → l ≠ .total))
    -- analyze_body from analyze_body_from at level Total
    (fun stmts ih => by
      obtain ⟨l, hl, himp⟩ := ih
      exact ⟨l, by simpa [analyze_body] using hl, fun hloop => himp (Or.inr hloop)⟩)
    -- analyze_body_from, nil
    (fun level => ⟨level, by simp [analyze_body_from], fun h => by
      rcases h with h | h
      · exact h
      · simp [stmtsHaveLoop] at h⟩)
    -- analyze_body_from, cons
    (fun level stmt rest ih1 ih2 => by
      obtain ⟨sl, hsl, hloopsl⟩ := ih1
      obtain ⟨l, hl, himp⟩ := ih2 sl
      refine ⟨l, by simp only [analyze_body_from, hsl, jbind_ok, hl], fun h => ?_⟩
      rcases h with h | h
      · exact himp (Or.inl (by
          intro hc
          exact h (combine_eq_total_iff level sl |>.mp hc).1))
      · simp only [stmtsHaveLoop, Bool.or_eq_true] at h
        rcases h with h | h
        · exact himp (Or.inl (by
            intro hc
            exact hloopsl h (combine_eq_total_iff level sl |>.mp hc).2))
        · exact himp (Or.inr h))
    -- assignment, data value
    (fun a e hv => by
      obtain ⟨l, h⟩ := analyze_data_expr_ok fp e
      refine ⟨l, ?_, fun hc => by simp [stmtHasLoop] at hc⟩
      simp [analyze_stmt, hv, h])
    -- assignment, control value
    (fun a e hv => by
      obtain ⟨l, h⟩ := analyze_control_expr_ok fp e
      refine ⟨l, ?_, fun hc => by simp [stmtHasLoop] at hc⟩
      simp [analyze_stmt, hv, h])
    -- if statement
    (fun condition then_branch else_branch ihthen ihelse => by
      obtain ⟨cl, hcl⟩ := analyze_control_expr_ok fp condition
      obtain ⟨tl, htl, htloop⟩ := ihthen
      cases else_branch with
      | none =>
          refine ⟨(cl.combine tl).combine .total, ?_, fun hloop => ?_⟩
          · simp only [analyze_stmt, hcl, htl, jbind_ok]
          · simp only [stmtHasLoop, Bool.or_eq_true] at hloop
            intro hc
            have h2 := (combine_eq_total_iff _ _ |>.mp hc).1
            have h3 := (combine_eq_total_iff _ _ |>.mp h2).2
            rcases hloop with h | h
            · exact htloop h h3
            · simp at h
      | some eb =>
          obtain ⟨el, hel, heloop⟩ := ihelse
          refine ⟨(cl.combine tl).combine el, ?_, fun hloop => ?_⟩
          · simp only [analyze_stmt, hcl, htl, hel, jbind_ok]
          · simp only [stmtHasLoop, Bool.or_eq_true] at hloop
            intro hc
            obtain ⟨h2, hel_total⟩ := combine_eq_total_iff _ _ |>.mp hc
            have h3 := (combine_eq_total_iff _ _ |>.mp h2).2
            rcases hloop with h | h
            · exact htloop h h3
            · exact heloop h hel_total)
    -- while
    (fun condition body ihbody => by
      obtain ⟨bl, hbl, _⟩ := ihbody
      exact ⟨PurityLevel.pure.combine bl, by simp only [analyze_stmt, hbl, jbind_ok],
        fun _ => pure_combine_ne_total bl⟩)
    -- for
    (fun var range body ihbody => by
      obtain ⟨bl, hbl, _⟩ := ihbody
      exact ⟨PurityLevel.pure.combine bl, by simp only [analyze_stmt, hbl, jbind_ok],
        fun _ => pure_combine_ne_total bl⟩)
    -- return with expression
    (fun expr => by
      obtain ⟨l, h⟩ := analyze_data_expr_ok fp expr
      exact ⟨l, by simpa [analyze_stmt] using h, fun hc => by simp [stmtHasLoop] at hc⟩)
    -- return without expression
    ⟨.total, by simp [analyze_stmt], fun hc => by simp [stmtHasLoop] at hc⟩
    -- print
    (fun es => ⟨.impure, by simp [analyze_stmt], fun _ => by simp⟩)
    -- reverse block
    (fun body ih => by
      obtain ⟨l, hl, himp⟩ := ih
      exact ⟨l, by simpa [analyze_stmt] using hl,
        fun hloop => himp (Or.inr (by simpa [stmtHasLoop] using hloop))⟩)
    -- nested block
    (fun stmts ih => by
      obtain ⟨l, hl, himp⟩ := ih
      exact ⟨l, by simpa [analyze_stmt] using hl,
        fun hloop => himp (by simpa [stmtHasLoop] using hloop)⟩)
    -- analyze_rev_body_from, nil
    (fun level => ⟨level, by simp [analyze_rev_body_from], fun h => by
      rcases h with h | h
      · exact h
      · simp [revStmtsHaveLoop] at h⟩)
    -- analyze_rev_body_from, cons
    (fun level stmt rest ih1 ih2 => by
      obtain ⟨sl, hsl, hloopsl⟩ := ih1
      obtain ⟨l, hl, himp⟩ := ih2 sl
      refine ⟨l, by simp only [analyze_rev_body_from, hsl, jbind_ok, hl], fun h => ?_⟩
      rcases h with h | h
      · exact himp (Or.inl (by
          intro hc
          exact h (combine_eq_total_iff level sl |>.mp hc).1))
      · simp only [revStmtsHaveLoop, Bool.or_eq_true] at h
        rcases h with h | h
        · exact himp (Or.inl (by
            intro hc
            exact hloopsl h (combine_eq_total_iff level sl |>.mp hc).2))
        · exact himp (Or.inr h))
    -- reversible AddAssign
    (fun target e => by
      obtain ⟨l, h⟩ := analyze_data_expr_ok fp e
      exact ⟨l, by simpa [analyze_reversible_stmt] using h,
        fun hc => by simp [revStmtHasLoop] at hc⟩)
    -- reversible SubAssign
    (fun target e => by
      obtain ⟨l, h⟩ := analyze_data_expr_ok fp e
      exact ⟨l, by simpa [analyze_reversible_stmt] using h,
        fun hc => by simp [revStmtHasLoop] at hc⟩)
    -- reversible If
    (fun condition then_branch else_branch ihthen ihelse => by
      obtain ⟨cl, hcl⟩ := analyze_control_expr_ok fp condition
      obtain ⟨tl, htl, htloop⟩ := ihthen
      cases else_branch with
      | none =>
          refine ⟨(cl.combine tl).combine .total, ?_, fun hloop => ?_⟩
          · simp only [analyze_reversible_stmt, hcl, htl, jbind_ok]
          · simp only [revStmtHasLoop, Bool.or_eq_true] at hloop
            intro hc
            have h2 := (combine_eq_total_iff _ _ |>.mp hc).1
            have h3 := (combine_eq_total_iff _ _ |>.mp h2).2
            rcases hloop with h | h
            · exact htloop h h3
            · simp at h
      | some eb =>
          obtain ⟨el, hel, heloop⟩ := ihelse
          refine ⟨(cl.combine tl).combine el, ?_, fun hloop => ?_⟩
          · simp only [analyze_reversible_stmt, hcl, htl, hel, jbind_ok]
          · simp only [revStmtHasLoop, Bool.or_eq_true] at hloop
            intro hc
            obtain ⟨h2, hel_total⟩ := combine_eq_total_iff _ _ |>.mp hc
            have h3 := (combine_eq_total_iff _ _ |>.mp h2).2
            rcases hloop with h | h
            · exact htloop h h3
            · exact heloop h hel_total)

theorem analyze_body_loop_nontotal (fp : FuncPurity) (stmts : List ControlStmt) :
    ∃ l, analyze_body fp stmts = .ok l ∧ (stmtsHaveLoop stmts = true → l ≠ .total) := by
  suffices h : ∀ level, ∃ l, analyze_body_from fp level stmts = .ok l ∧
      ((level ≠ .total ∨ stmtsHaveLoop stmts = true) → l ≠ .total) by
    obtain ⟨l, hl, himp⟩ := h .total
    exact ⟨l, by simpa [analyze_body] using hl, fun hloop => himp (Or.inr hloop)⟩
  induction stmts with
  | nil =>
      intro level
      refine ⟨level, by simp [analyze_body_from], fun h => ?_⟩
      rcases h with h | h
      · exact h
      · simp [stmtsHaveLoop] at h
  | cons s rest ih =>
      intro level
      obtain ⟨sl, hsl, hloopsl⟩ := analyze_stmt_loop_nontotal fp s
      obtain ⟨l, hl, himp⟩ := ih (level.combine sl)
      refine ⟨l, by simp only [analyze_body_from, hsl, jbind_ok, hl], fun h => ?_⟩
      rcases h with h | h
      · exact himp (Or.inl (by
          intro hc
          exact h (combine_eq_total_iff level sl |>.mp hc).1))
      · simp only [stmtsHaveLoop, Bool.or_eq_true] at h
        rcases h with h | h
        · exact himp (Or.inl (by
            intro hc
            exact hloopsl h (combine_eq_total_iff level sl |>.mp hc).2))
        · exact himp (Or.inr h)

theorem not_satisfies_total (l : PurityLevel) (h : l ≠ .total) :
    l.satisfies .total = false := by
  cases l <;> simp_all [PurityLevel.satisfies]

theorem purity_check_function_total_loop (fp : FuncPurity) (func : FunctionDecl)
    (hp : func.purity = .total) (hl : stmtsHaveLoop func.body = true) :
    purity_check_function fp func
      = .error (.purityViolation
          "Function is marked total but contains loops or impure calls") := by
  obtain ⟨l, hbody, himp⟩ := analyze_body_loop_nontotal fp func.body
  have hsat : l.satisfies .total = false := not_satisfies_total l (himp hl)
  simp only [purity_check_function, hbody, jbind_ok, hp, hsat]
  simp

theorem purity_check_function_shape (fp : FuncPurity) (g : FunctionDecl) :
    purity_check_function fp g = .ok () ∨
      ∃ m, purity_check_function fp g = .error (.purityViolation m) := by
  obtain ⟨l, hl, _⟩ := analyze_body_loop_nontotal fp g.body
  simp only [purity_check_function, hl, jbind_ok]
  by_cases hs : l.satisfies g.purity
  · left; simp [hs]
  · right
    simp only [Bool.not_eq_true] at hs
    simp only [hs, Bool.not_false, if_true]
    exact ⟨_, rfl⟩

theorem purity_check_functions_mem_err (fp : FuncPurity) :
    ∀ (items : List TopLevel) (f : FunctionDecl), TopLevel.function f ∈ items →
      (∃ m, purity_check_function fp f = .error (.purityViolation m)) →
      ∃ m, purity_check_functions fp items = .error (.purityViolation m) := by
  intro items
  induction items with
  | nil => intro f h _; simp at h
  | cons head rest ih =>
      intro f hmem hferr
      rcases List.mem_cons.mp hmem with heq | hmemrest
      · obtain ⟨m, hm⟩ := hferr
        subst heq
        exact ⟨m, by simp only [purity_check_functions, hm, jbind_error]⟩
      · obtain ⟨m, hm⟩ := ih f hmemrest hferr
        cases head with
        | function g =>
            rcases purity_check_function_shape fp g with hok | ⟨mg, hg⟩
            · exact ⟨m, by simp only [purity_check_functions, hok, jbind_ok, hm]⟩
            · exact ⟨mg, by simp only [purity_check_functions, hg, jbind_error]⟩
        | module mo => exact ⟨m, by simpa [purity_check_functions] using hm⟩
        | imp i => exact ⟨m, by simpa [purity_check_functions] using hm⟩
        | control s => exact ⟨m, by simpa [purity_check_functions] using hm⟩


/-- C4: every function declared `@total` whose body contains a `for` or
`while` loop anywhere (if branches, nested blocks, and reversible-if
branches included) fails the purity check: its own `check_function` reports
a purity violation, and `PurityChecker::check_program` on any program
declaring it returns a purity violation. -/
theorem total_function_with_loop_fails (program : Program) (f : FunctionDecl)
    (hmem : TopLevel.function f ∈ program.statements)
    (hp : f.purity = .total) (hl : stmtsHaveLoop f.body = true) :
    (∃ msg, purity_check_function (collect_func_purity [] program.statements) f
        = .error (.purityViolation msg)) ∧
    (∃ msg, purity_check_program program = .error (.purityViolation msg)) := by
  have hferr := purity_check_function_total_loop
    (collect_func_purity [] program.statements) f hp hl
  refine ⟨⟨_, hferr⟩, ?_⟩
  simpa [purity_check_program] using
    purity_check_functions_mem_err _ program.statements f hmem ⟨_, hferr⟩

/-- C4 witness: a program with one `@total` function whose body is a `while`
loop fails `check_program` with a purity violation. -/
theorem total_function_with_loop_fails_witness :
    ∃ msg, purity_check_program progTotalLoop = .error (.purityViolation msg) :=
  (total_function_with_loop_fails progTotalLoop funcTotalLoop
    (by simp [progTotalLoop]) rfl
    (by simp [funcTotalLoop, stmtsHaveLoop, stmtHasLoop])).2


/-! C1: the `execute_and_reverse` round trip on a reversible block. -/

/-- Unfolding of the `i64` range check. -/
theorem fitsI64_iff (n : Int) : fitsI64 n = true ↔ (i64Min ≤ n ∧ n ≤ i64Max) := by
  simp [fitsI64]

/-- A successful `checked_add` returns the exact sum, which is in range. -/
theorem checkedAdd_some {a b c : Int} (h : checkedAdd a b = some c) :
    c = a + b ∧ i64Min ≤ a + b ∧ a + b ≤ i64Max := by
  unfold checkedAdd at h
  by_cases hf : fitsI64 (a + b)
  · rw [if_pos hf] at h
    cases h
    exact ⟨rfl, (fitsI64_iff _).mp hf⟩
  · rw [if_neg hf] at h
    cases h

/-- Two's-complement wrapping always lands in the `i64` range. -/
theorem wrap64_range (n : Int) : i64Min ≤ wrap64 n ∧ wrap64 n ≤ i64Max := by
  simp only [wrap64, i64Min, i64Max]
  omega

-- Value-level: kind preservation of add

/-- `Value::add` preserves the numeric kind on same-kind operands. -/
theorem hasKind_add {k : NumKind} {a b c : Value}
    (ha : a.hasKind k = true) (hb : b.hasKind k = true) (h : a.add b = .ok c) :
    c.hasKind k = true := by
  cases k with
  | int =>
      cases a <;> simp [Value.hasKind] at ha
      cases b <;> simp [Value.hasKind] at hb
      rename_i x y
      simp only [Value.add] at h
      cases hca : checkedAdd x y with
      | none => rw [hca] at h; cases h
      | some n =>
          rw [hca] at h
          cases h
          obtain ⟨hn, h1, h2⟩ := checkedAdd_some hca
          subst hn
          simp [Value.hasKind, fitsI64_iff]
          exact ⟨h1, h2⟩
  | rational =>
      cases a <;> simp [Value.hasKind] at ha
      cases b <;> simp [Value.hasKind] at hb
      simp only [Value.add] at h
      cases h
      simp [Value.hasKind]
  | complex =>
      cases a <;> simp [Value.hasKind] at ha
      cases b <;> simp [Value.hasKind] at hb
      simp only [Value.add] at h
      cases h
      simp [Value.hasKind]

-- Round trip in the AddAssign direction: current `a`, recorded value `b`,
-- forward a+b = c; reversal computes c + (-b).

/-- Value-level AddAssign round trip: after a successful forward `a + b = c`, replaying `c + (-b)` (when it succeeds) returns exactly `a` for Int, Rational and Complex operands. -/
theorem add_roundtrip {k : NumKind} {a b c nb d : Value}
    (ha : a.hasKind k = true) (hb : b.hasKind k = true)
    (hfwd : a.add b = .ok c) (hneg : b.negate = .ok nb) (hrev : c.add nb = .ok d) :
    d = a := by
  cases k with
  | int =>
      cases a <;> simp [Value.hasKind] at ha
      cases b <;> simp [Value.hasKind] at hb
      rename_i x y
      simp only [Value.negate] at hneg
      cases hneg
      simp only [Value.add] at hfwd
      cases hca : checkedAdd x y with
      | none => rw [hca] at hfwd; cases hfwd
      | some n =>
          rw [hca] at hfwd
          cases hfwd
          simp only [Value.add] at hrev
          cases hcb : checkedAdd n (wrap64 (-y)) with
          | none => rw [hcb] at hrev; cases hrev
          | some m =>
              rw [hcb] at hrev
              cases hrev
              obtain ⟨hn, h1, h2⟩ := checkedAdd_some hca
              obtain ⟨hm, h3, h4⟩ := checkedAdd_some hcb
              subst hn hm
              simp only [fitsI64_iff] at ha hb
              congr 1
              simp only [wrap64, i64Min, i64Max] at *
              omega
  | rational =>
      cases a <;> simp [Value.hasKind] at ha
      cases b <;> simp [Value.hasKind] at hb
      simp only [Value.negate] at hneg
      cases hneg
      simp only [Value.add] at hfwd
      cases hfwd
      simp only [Value.add] at hrev
      cases hrev
      congr 1
      ring
  | complex =>
      cases a <;> simp [Value.hasKind] at ha
      cases b <;> simp [Value.hasKind] at hb
      simp only [Value.negate] at hneg
      cases hneg
      simp only [Value.add] at hfwd
      cases hfwd
      simp only [Value.add] at hrev
      cases hrev
      rename_i za zb
      congr 1
      cases za; cases zb
      simp [Complex64.add, Complex64.neg]

-- Round trip in the SubAssign direction: forward a + (-b) = c; reversal
-- computes c + b.

/-- Value-level SubAssign round trip: after a successful forward `a + (-b) = c`, replaying `c + b` (when it succeeds) returns exactly `a` for Int, Rational and Complex operands. -/
theorem sub_roundtrip {k : NumKind} {a b c nb d : Value}
    (ha : a.hasKind k = true) (hb : b.hasKind k = true)
    (hneg : b.negate = .ok nb) (hfwd : a.add nb = .ok c) (hrev : c.add b = .ok d) :
    d = a := by
  cases k with
  | int =>
      cases a <;> simp [Value.hasKind] at ha
      cases b <;> simp [Value.hasKind] at hb
      rename_i x y
      simp only [Value.negate] at hneg
      cases hneg
      simp only [Value.add] at hfwd
      cases hca : checkedAdd x (wrap64 (-y)) with
      | none => rw [hca] at hfwd; cases hfwd
      | some n =>
          rw [hca] at hfwd
          cases hfwd
          simp only [Value.add] at hrev
          cases hcb : checkedAdd n y with
          | none => rw [hcb] at hrev; cases hrev
          | some m =>
              rw [hcb] at hrev
              cases hrev
              obtain ⟨hn, h1, h2⟩ := checkedAdd_some hca
              obtain ⟨hm, h3, h4⟩ := checkedAdd_some hcb
              subst hn hm
              simp only [fitsI64_iff] at ha hb
              congr 1
              simp only [wrap64, i64Min, i64Max] at *
              omega
  | rational =>
      cases a <;> simp [Value.hasKind] at ha
      cases b <;> simp [Value.hasKind] at hb
      simp only [Value.negate] at hneg
      cases hneg
      simp only [Value.add] at hfwd
      cases hfwd
      simp only [Value.add] at hrev
      cases hrev
      congr 1
      ring
  | complex =>
      cases a <;> simp [Value.hasKind] at ha
      cases b <;> simp [Value.hasKind] at hb
      simp only [Value.negate] at hneg
      cases hneg
      simp only [Value.add] at hfwd
      cases hfwd
      simp only [Value.add] at hrev
      cases hrev
      rename_i za zb
      congr 1
      cases za; cases zb
      simp [Complex64.add, Complex64.neg]

-- negate is defined on every kind-k value

/-- `Value::negate` succeeds on every Int, Rational and Complex value and preserves the kind. -/
theorem negate_ok_of_kind {k : NumKind} {b : Value} (hb : b.hasKind k = true) :
    ∃ nb, b.negate = .ok nb ∧ nb.hasKind k = true := by
  cases k <;> cases b <;> simp [Value.hasKind] at hb <;>
    simp [Value.negate, Value.hasKind, fitsI64_iff]
  exact wrap64_range _

/-- Kind preservation of a given successful `Value::negate`. -/
theorem negate_kind {k : NumKind} {b nb : Value} (hb : b.hasKind k = true)
    (h : b.negate = .ok nb) : nb.hasKind k = true := by
  obtain ⟨nb2, h2, hk⟩ := negate_ok_of_kind hb
  rw [h] at h2
  cases h2
  exact hk

/-- A lookup in a single-kind environment returns a value of that kind. -/
theorem envAllKind_find {k : NumKind} :
    ∀ {env : Env} {n : String} {v : Value},
      envAllKind k env = true → envFind env n = some v → v.hasKind k = true := by
  intro env
  induction env with
  | nil => intro n v _ h; simp [envFind] at h
  | cons p rest ih =>
      intro n v hall hfind
      obtain ⟨key, w⟩ := p
      simp only [envAllKind, List.all_cons] at hall
      simp only [envFind] at hfind
      simp only [Bool.and_eq_true] at hall
      by_cases hk : key = n
      · rw [if_pos hk] at hfind
        cases hfind
        exact hall.1
      · rw [if_neg hk] at hfind
        exact ih (by simpa [envAllKind] using hall.2) hfind

/-- Inserting a value of the right kind keeps the environment single-kind. -/
theorem envAllKind_insert {k : NumKind} {env : Env} {n : String} {v : Value}
    (hall : envAllKind k env = true) (hv : v.hasKind k = true) :
    envAllKind k (envInsert env n v) = true := by
  simp [envAllKind, envInsert, hv]
  simpa [envAllKind] using hall

/-- Reversible-context expression evaluation in a single-kind environment with single-kind literals returns a value of that kind. -/
theorem eval_kind {k : NumKind} (vars : Env) (henv : envAllKind k vars = true) :
    ∀ (e : DataExpr) (v : Value), dataExprLitsKind k e = true →
      ReversibleInterpreter.eval_data_expr vars e = .ok v → v.hasKind k = true := by
  intro e
  induction e using ReversibleInterpreter.eval_data_expr.induct vars with
  | case1 num =>
      intro v hlit hev
      simp only [ReversibleInterpreter.eval_data_expr] at hev
      cases k with
      | int =>
          cases num <;> simp [numberHasKind, dataExprLitsKind] at hlit <;>
            simp only [Value.fromNumber] at hev
          cases hev
          simpa [Value.hasKind, fitsI64_iff] using hlit
      | rational =>
          cases num <;> simp [numberHasKind, dataExprLitsKind] at hlit
          rename_i num den
          simp only [Value.fromNumber] at hev
          by_cases hd : den = 0
          · rw [if_pos hd] at hev; cases hev
          · rw [if_neg hd] at hev
            cases hev
            simp [Value.hasKind]
      | complex =>
          cases num <;> simp [numberHasKind, dataExprLitsKind] at hlit
          simp only [Value.fromNumber] at hev
          cases hev
          simp [Value.hasKind]
  | case2 name =>
      intro v _ hev
      simp only [ReversibleInterpreter.eval_data_expr,
        ReversibleInterpreter.get_variable] at hev
      cases hf : envFind vars name with
      | none => rw [hf] at hev; cases hev
      | some w =>
          rw [hf] at hev
          cases hev
          exact envAllKind_find henv hf
  | case3 left right ihl ihr =>
      intro v hlit hev
      simp only [dataExprLitsKind, Bool.and_eq_true] at hlit
      simp only [ReversibleInterpreter.eval_data_expr] at hev
      cases hl : ReversibleInterpreter.eval_data_expr vars left with
      | error e => rw [hl] at hev; cases hev
      | ok lv =>
          rw [hl] at hev
          cases hr : ReversibleInterpreter.eval_data_expr vars right with
          | error e => rw [hr] at hev; cases hev
          | ok rv =>
              rw [hr] at hev
              simp only [jbind_ok] at hev
              exact hasKind_add (ihl lv hlit.1 hl) (ihr rv hlit.2 hr) hev
  | case4 inner ih =>
      intro v hlit hev
      simp only [dataExprLitsKind] at hlit
      simp only [ReversibleInterpreter.eval_data_expr] at hev
      cases hi : ReversibleInterpreter.eval_data_expr vars inner with
      | error e => rw [hi] at hev; cases hev
      | ok iv =>
          rw [hi] at hev
          simp only [jbind_ok] at hev
          have hk := ih iv hlit hi
          obtain ⟨nb, hnb, hnbk⟩ := negate_ok_of_kind hk
          rw [hnb] at hev
          cases hev
          exact hnbk
  | case5 call =>
      intro v _ hev
      simp [ReversibleInterpreter.eval_data_expr] at hev
  | case6 elems =>
      intro v _ hev
      simp [ReversibleInterpreter.eval_data_expr] at hev
  | case7 elems =>
      intro v _ hev
      simp [ReversibleInterpreter.eval_data_expr] at hev

/-- Evaluation of `apply_operation` on an `AddAssign` op once the target is known to resolve. -/
theorem apply_addAssign_eq (env : Env) (target : String) (value cur : Value)
    (hf : envFind env target = some cur) :
    ReversibleInterpreter.apply_operation env (.addAssign target value)
      = match cur.add value with
        | .error e => (env, some e)
        | .ok d => (envInsert env target d, none) := by
  simp only [ReversibleInterpreter.apply_operation, ReversibleInterpreter.get_variable, hf]

/-- Evaluation of `apply_operation` on a `SubAssign` op once the target is known to resolve. -/
theorem apply_subAssign_eq (env : Env) (target : String) (value cur : Value)
    (hf : envFind env target = some cur) :
    ReversibleInterpreter.apply_operation env (.subAssign target value)
      = match value.negate with
        | .error e => (env, some e)
        | .ok nb =>
            match cur.add nb with
            | .error e => (env, some e)
            | .ok d => (envInsert env target d, none) := by
  simp only [ReversibleInterpreter.apply_operation, ReversibleInterpreter.get_variable, hf]

/-- In a reversible if branch every non-assignment statement is a runtime error, so a branch without assignments executes successfully only when it is empty, leaving the state unchanged. -/
theorem execute_control_stmts_assign_free {stmts : List ControlStmt}
    (hfree : branchHasAssign stmts = false) :
    ∀ {st st2 : ReversibleInterpreter},
      ReversibleInterpreter.execute_control_stmts st stmts = (st2, none) →
      stmts = [] ∧ st2 = st := by
  cases stmts with
  | nil =>
      intro st st2 h
      simp only [ReversibleInterpreter.execute_control_stmts] at h
      injection h with h1 h2
      exact ⟨rfl, h1.symm⟩
  | cons s rest =>
      intro st st2 h
      exfalso
      simp only [ReversibleInterpreter.execute_control_stmts] at h
      cases s with
      | assignment a => simp [branchHasAssign] at hfree
      | ifStmt i => simp [ReversibleInterpreter.execute_control_stmt_reversible] at h
      | whileStmt w => simp [ReversibleInterpreter.execute_control_stmt_reversible] at h
      | forStmt f => simp [ReversibleInterpreter.execute_control_stmt_reversible] at h
      | ret e => simp [ReversibleInterpreter.execute_control_stmt_reversible] at h
      | print es => simp [ReversibleInterpreter.execute_control_stmt_reversible] at h
      | reverseBlock b => simp [ReversibleInterpreter.execute_control_stmt_reversible] at h
      | block stmts2 => simp [ReversibleInterpreter.execute_control_stmt_reversible] at h

/-- Splitting `apply_operations` over a concatenation at the first error. -/
theorem apply_operations_append (xs ys : List RecordedOp) (env : Env) :
    ReversibleInterpreter.apply_operations env (xs ++ ys)
      = match ReversibleInterpreter.apply_operations env xs with
        | (env1, none) => ReversibleInterpreter.apply_operations env1 ys
        | (env1, some e) => (env1, some e) := by
  induction xs generalizing env with
  | nil => simp [ReversibleInterpreter.apply_operations]
  | cons op rest ih =>
      simp only [List.cons_append, ReversibleInterpreter.apply_operations]
      cases h : ReversibleInterpreter.apply_operation env op with
      | mk env1 err =>
          cases err with
          | none => simp [ih]
          | some e => simp

/-- One reversible statement, run in a single-kind environment with single-kind literals and assignment-free if branches, keeps the environment single-kind, records exactly one op, and applying that op's inverse to any environment equivalent to the post state (when it succeeds) restores the pre state's lookups. -/
theorem execute_stmt_reverses (k : NumKind) {st st1 : ReversibleInterpreter}
    {stmt : ReversibleStmt}
    (hbr : revStmtBranchesAssignFree stmt = true)
    (hke : revStmtExprsKind k stmt = true)
    (henv : envAllKind k st.vars = true)
    (hrun : ReversibleInterpreter.execute_reversible_stmt st stmt = (st1, none)) :
    envAllKind k st1.vars = true ∧
    ∃ op, st1.trace = st.trace.record op ∧
      ∀ env env2 err, EnvEquiv env st1.vars →
        ReversibleInterpreter.apply_operation env op.inverse = (env2, err) →
        err = none → EnvEquiv env2 st.vars := by
  cases stmt with
  | addAssign target e =>
      cases hev : ReversibleInterpreter.eval_data_expr st.vars e with
      | error e0 => simp [ReversibleInterpreter.execute_reversible_stmt, hev] at hrun
      | ok value =>
          simp only [ReversibleInterpreter.execute_reversible_stmt, hev,
            ReversibleInterpreter.get_variable] at hrun
          cases hf : envFind st.vars target with
          | none => simp [hf] at hrun
          | some current =>
              simp only [hf] at hrun
              cases hadd : current.add value with
              | error e0 => simp [hadd] at hrun
              | ok new_value =>
                  simp only [hadd] at hrun
                  injection hrun with h1 h2
                  subst h1
                  have hkv : value.hasKind k = true :=
                    eval_kind st.vars henv e value hke hev
                  have hkc : current.hasKind k = true := envAllKind_find henv hf
                  have hknew := hasKind_add hkc hkv hadd
                  refine ⟨envAllKind_insert henv hknew, .addAssign target value, rfl, ?_⟩
                  intro env env2 err heq happ herr
                  subst herr
                  have hinv : (RecordedOp.addAssign target value).inverse
                      = .subAssign target value := by
                    simp [RecordedOp.inverse]
                  rw [hinv] at happ
                  have hfe : envFind env target = some new_value := by
                    rw [heq target]
                    exact envFind_insert_self _ _ _
                  rw [apply_subAssign_eq env target value new_value hfe] at happ
                  cases hneg : value.negate with
                  | error e0 => simp [hneg] at happ
                  | ok nb =>
                      simp only [hneg] at happ
                      cases hrev : new_value.add nb with
                      | error e0 => simp [hrev] at happ
                      | ok d =>
                          simp only [hrev] at happ
                          injection happ with h1 h2
                          subst h1
                          have hd : d = current := add_roundtrip hkc hkv hadd hneg hrev
                          subst hd
                          intro n
                          by_cases hn : target = n
                          · subst hn
                            rw [envFind_insert_self, hf]
                          · rw [envFind_insert_ne _ _ _ _ hn, heq n,
                              envFind_insert_ne _ _ _ _ hn]
  | subAssign target e =>
      cases hev : ReversibleInterpreter.eval_data_expr st.vars e with
      | error e0 => simp [ReversibleInterpreter.execute_reversible_stmt, hev] at hrun
      | ok value =>
          simp only [ReversibleInterpreter.execute_reversible_stmt, hev,
            ReversibleInterpreter.get_variable] at hrun
          cases hf : envFind st.vars target with
          | none => simp [hf] at hrun
          | some current =>
              simp only [hf] at hrun
              cases hneg : value.negate with
              | error e0 => simp [hneg] at hrun
              | ok neg_value =>
                  simp only [hneg] at hrun
                  cases hfwd : current.add neg_value with
                  | error e0 => simp [hfwd] at hrun
                  | ok new_value =>
                      simp only [hfwd] at hrun
                      injection hrun with h1 h2
                      subst h1
                      have hkv : value.hasKind k = true :=
                        eval_kind st.vars henv e value hke hev
                      have hkc : current.hasKind k = true := envAllKind_find henv hf
                      have hknb := negate_kind hkv hneg
                      have hknew := hasKind_add hkc hknb hfwd
                      refine ⟨envAllKind_insert henv hknew,
                        .subAssign target value, rfl, ?_⟩
                      intro env env2 err heq happ herr
                      subst herr
                      have hinv : (RecordedOp.subAssign target value).inverse
                          = .addAssign target value := by
                        simp [RecordedOp.inverse]
                      rw [hinv] at happ
                      have hfe : envFind env target = some new_value := by
                        rw [heq target]
                        exact envFind_insert_self _ _ _
                      rw [apply_addAssign_eq env target value new_value hfe] at happ
                      cases hrev : new_value.add value with
                      | error e0 => simp [hrev] at happ
                      | ok d =>
                          simp only [hrev] at happ
                          injection happ with h1 h2
                          subst h1
                          have hd : d = current :=
                            sub_roundtrip hkc hkv hneg hfwd hrev
                          subst hd
                          intro n
                          by_cases hn : target = n
                          · subst hn
                            rw [envFind_insert_self, hf]
                          · rw [envFind_insert_ne _ _ _ _ hn, heq n,
                              envFind_insert_ne _ _ _ _ hn]
  | ifStmt if_stmt =>
      cases if_stmt with
      | mk cond then_branch else_branch =>
          simp only [revStmtBranchesAssignFree, Bool.and_eq_true,
            Bool.not_eq_true'] at hbr
          cases hcond : ReversibleInterpreter.eval_control_expr st.vars cond with
          | error e0 =>
              simp [ReversibleInterpreter.execute_reversible_stmt,
                IfStmt.condition, hcond] at hrun
          | ok condition =>
              simp only [ReversibleInterpreter.execute_reversible_stmt,
                IfStmt.condition, IfStmt.then_branch, IfStmt.else_branch,
                hcond] at hrun
              cases hct : condition.isTruthy with
              | true =>
                  rw [if_pos hct, hct] at hrun
                  cases hexec : ReversibleInterpreter.execute_control_stmts
                      { st with trace := ReverseTrace.new } then_branch with
                  | mk st2 errB =>
                      cases errB with
                      | some e0 => simp [hexec] at hrun
                      | none =>
                          simp only [hexec] at hrun
                          obtain ⟨hnil, hst2⟩ :=
                            execute_control_stmts_assign_free hbr.1 hexec
                          subst hst2
                          injection hrun with h1 h2
                          subst h1
                          refine ⟨henv,
                            .ifOp true ReverseTrace.new.operations [], rfl, ?_⟩
                          intro env env2 err heq happ herr
                          subst herr
                          have hinv : (RecordedOp.ifOp true
                              ReverseTrace.new.operations []).inverse
                              = .ifOp true [] [] := by
                            simp [RecordedOp.inverse, RecordedOp.inverseRev,
                              ReverseTrace.new]
                          rw [hinv] at happ
                          simp only [ReversibleInterpreter.apply_operation,
                            ReversibleInterpreter.apply_operations] at happ
                          injection happ with h1 h2
                          subst h1
                          exact heq
              | false =>
                  rw [if_neg (by simp [hct]), hct] at hrun
                  cases else_branch with
                  | none =>
                      simp only at hrun
                      injection hrun with h1 h2
                      subst h1
                      refine ⟨henv, .ifOp false [] [], rfl, ?_⟩
                      intro env env2 err heq happ herr
                      subst herr
                      have hinv : (RecordedOp.ifOp false [] []).inverse
                          = .ifOp false [] [] := by
                        simp [RecordedOp.inverse, RecordedOp.inverseRev]
                      rw [hinv] at happ
                      simp only [ReversibleInterpreter.apply_operation,
                        ReversibleInterpreter.apply_operations] at happ
                      injection happ with h1 h2
                      subst h1
                      exact heq
                  | some eb =>
                      simp only at hrun
                      cases hexec : ReversibleInterpreter.execute_control_stmts
                          { st with trace := ReverseTrace.new } eb with
                      | mk st2 errB =>
                          cases errB with
                          | some e0 => simp [hexec] at hrun
                          | none =>
                              simp only [hexec] at hrun
                              have hbre : branchHasAssign eb = false := by
                                simpa using hbr.2
                              obtain ⟨hnil, hst2⟩ :=
                                execute_control_stmts_assign_free hbre hexec
                              subst hst2
                              injection hrun with h1 h2
                              subst h1
                              refine ⟨henv,
                                .ifOp false [] ReverseTrace.new.operations,
                                rfl, ?_⟩
                              intro env env2 err heq happ herr
                              subst herr
                              have hinv : (RecordedOp.ifOp false []
                                  ReverseTrace.new.operations).inverse
                                  = .ifOp false [] [] := by
                                simp [RecordedOp.inverse, RecordedOp.inverseRev,
                                  ReverseTrace.new]
                              rw [hinv] at happ
                              simp only [ReversibleInterpreter.apply_operation,
                                ReversibleInterpreter.apply_operations] at happ
                              injection happ with h1 h2
                              subst h1
                              exact heq

/-- Statement-list version of the forward/backward round trip: the forward fold keeps the environment single-kind, appends its recorded ops, and replaying their reversed inverses (when it succeeds) restores every lookup of the pre state. -/
theorem execute_forward_go_reverses (k : NumKind) :
    ∀ (stmts : List ReversibleStmt) (st st1 : ReversibleInterpreter),
      stmts.all revStmtBranchesAssignFree = true →
      stmts.all (revStmtExprsKind k) = true →
      envAllKind k st.vars = true →
      ReversibleInterpreter.execute_forward.go st stmts = (st1, none) →
      envAllKind k st1.vars = true ∧
      ∃ ops, st1.trace.operations = st.trace.operations ++ ops ∧
        ∀ env env2 err, EnvEquiv env st1.vars →
          ReversibleInterpreter.apply_operations env (RecordedOp.inverseRev ops)
            = (env2, err) →
          err = none → EnvEquiv env2 st.vars := by
  intro stmts
  induction stmts with
  | nil =>
      intro st st1 _ _ henv hrun
      simp only [ReversibleInterpreter.execute_forward.go] at hrun
      injection hrun with h1 h2
      subst h1
      refine ⟨henv, [], by simp, ?_⟩
      intro env env2 err heq happ herr
      subst herr
      simp only [RecordedOp.inverseRev, ReversibleInterpreter.apply_operations] at happ
      injection happ with h1 h2
      subst h1
      exact heq
  | cons stmt rest ih =>
      intro st st1 hbr hke henv hrun
      simp only [List.all_cons, Bool.and_eq_true] at hbr hke
      simp only [ReversibleInterpreter.execute_forward.go] at hrun
      cases hstep : ReversibleInterpreter.execute_reversible_stmt st stmt with
      | mk stA errA =>
          cases errA with
          | some e => simp [hstep] at hrun
          | none =>
              simp only [hstep] at hrun
              obtain ⟨henvA, op, htrA, hrev1⟩ :=
                execute_stmt_reverses k hbr.1 hke.1 henv hstep
              obtain ⟨henv1, ops2, htr2, hrev2⟩ := ih stA st1 hbr.2 hke.2 henvA hrun
              refine ⟨henv1, op :: ops2, ?_, ?_⟩
              · rw [htr2, htrA]
                simp [ReverseTrace.record]
              · intro env env2 err heq happ herr
                subst herr
                rw [show RecordedOp.inverseRev (op :: ops2)
                    = RecordedOp.inverseRev ops2 ++ [op.inverse] from by
                  simp [RecordedOp.inverseRev]] at happ
                rw [apply_operations_append] at happ
                cases hmid : ReversibleInterpreter.apply_operations env
                    (RecordedOp.inverseRev ops2) with
                | mk envm errm =>
                    cases errm with
                    | some e => simp [hmid] at happ
                    | none =>
                        simp only [hmid] at happ
                        have hmideq : EnvEquiv envm stA.vars :=
                          hrev2 env envm none heq hmid rfl
                        simp only [ReversibleInterpreter.apply_operations] at happ
                        cases hone : ReversibleInterpreter.apply_operation envm
                            op.inverse with
                        | mk env1b err1b =>
                            cases err1b with
                            | some e => simp [hone] at happ
                            | none =>
                                simp only [hone,
                                  ReversibleInterpreter.apply_operations] at happ
                                injection happ with h1 h2
                                subst h1
                                exact hrev1 envm env1b none hmideq hone rfl

/-- C1: for every reversible block that passes the self-reference check,
whose if branches hold no plain assignments, whose right-hand literals are
all of one kind among Int, Rational and Complex, run on a trace-free
interpreter whose variables are all of that same kind, a successful
`execute_and_reverse` leaves every variable exactly equal (as a lookup
answer) to its value before the call.  (The original claim also covered
blocks whose if branches hold plain assignments and mixed-kind values; the
counterexample below refutes both of those readings.) -/
theorem execute_and_reverse_restores (k : NumKind)
    (st st1 : ReversibleInterpreter) (block : ReverseBlock)
    (hchk : check_reversibility block = .ok ())
    (hbr : blockBranchesAssignFree block = true)
    (hke : blockExprsKind k block = true)
    (henv : envAllKind k st.vars = true)
    (htr : st.trace.operations = [])
    (hrun : ReversibleInterpreter.execute_and_reverse st block = (st1, none)) :
    ∀ name, envFind st1.vars name = envFind st.vars name := by
  simp only [ReversibleInterpreter.execute_and_reverse,
    ReversibleInterpreter.execute_forward] at hrun
  cases hfwd : ReversibleInterpreter.execute_forward.go st block.body with
  | mk stF errF =>
      cases errF with
      | some e => simp [hfwd] at hrun
      | none =>
          simp only [hfwd] at hrun
          obtain ⟨henvF, ops, htrF, hrev⟩ :=
            execute_forward_go_reverses k block.body st stF hbr hke henv hfwd
          simp only [ReversibleInterpreter.execute_reverse,
            ReverseTrace.reverse_operations] at hrun
          rw [htrF, htr] at hrun
          simp only [List.nil_append] at hrun
          cases happ : ReversibleInterpreter.apply_operations stF.vars
              (RecordedOp.inverseRev ops) with
          | mk envR errR =>
              cases errR with
              | some e => simp [happ] at hrun
              | none =>
                  simp only [happ] at hrun
                  injection hrun with h1 h2
                  subst h1
                  exact hrev stF.vars envR none (fun n => rfl) happ rfl

/-- C1 counterexample: two blocks that pass `check_reversibility` and run
`execute_and_reverse` to a successful finish without restoring `x`.  First,
a reversible if whose branch holds the plain assignment `x = 0`: the branch
executes but is never recorded, so reversal leaves `x` at `0`, not `5`.
Second, `x += 1/2` on an Int-valued `x`: the coercion arm turns `x` into a
Rational, and reversal returns a Rational `1`, not the original `Int 1`. -/
theorem execute_and_reverse_counterexample :
    (check_reversibility blockIfAssign = .ok () ∧
      envAllKind .int stIfAssign.vars = true ∧
      stIfAssign.trace.operations = [] ∧
      (ReversibleInterpreter.execute_and_reverse stIfAssign blockIfAssign).2 = none ∧
      envFind (ReversibleInterpreter.execute_and_reverse stIfAssign
        blockIfAssign).1.vars "x" = some (.int 0) ∧
      envFind stIfAssign.vars "x" = some (.int 5) ∧
      envFind (ReversibleInterpreter.execute_and_reverse stIfAssign
          blockIfAssign).1.vars "x"
        ≠ envFind stIfAssign.vars "x") ∧
    (check_reversibility blockAddRat = .ok () ∧
      blockBranchesAssignFree blockAddRat = true ∧
      stAddRat.trace.operations = [] ∧
      (ReversibleInterpreter.execute_and_reverse stAddRat blockAddRat).2 = none ∧
      envFind (ReversibleInterpreter.execute_and_reverse stAddRat
        blockAddRat).1.vars "x"
        = some (.rational (((1 : Int) : Rat) + ratioNew 1 2 + -(ratioNew 1 2))) ∧
      envFind stAddRat.vars "x" = some (.int 1) ∧
      envFind (ReversibleInterpreter.execute_and_reverse stAddRat
          blockAddRat).1.vars "x"
        ≠ envFind stAddRat.vars "x") := by
  refine ⟨⟨rfl, rfl, rfl, rfl, rfl, rfl, ?_⟩, ⟨rfl, rfl, rfl, rfl, rfl, rfl, ?_⟩⟩
  · intro h
    have h2 : (some (Value.int 0) : Option Value) = some (.int 5) := h
    simp at h2
  · intro h
    have h2 : (some (Value.rational (((1 : Int) : Rat) + ratioNew 1 2
        + -(ratioNew 1 2))) : Option Value) = some (.int 1) := h
    simp at h2

/-- C1 witness: `x += 5` from `x = 10` satisfies every hypothesis and the
round trip restores the lookup of `x`. -/
theorem execute_and_reverse_restores_witness :
    envFind (ReversibleInterpreter.execute_and_reverse stAddFive
      blockAddFive).1.vars "x" = envFind stAddFive.vars "x" :=
  execute_and_reverse_restores .int stAddFive
    (ReversibleInterpreter.execute_and_reverse stAddFive blockAddFive).1 blockAddFive
    rfl rfl rfl rfl rfl rfl "x"



/-! C5: the iteration governor. -/

/-- Setting a variable never touches the iteration counter or the function table. -/
theorem set_variable_pres (st : Interp) (n : String) (v : Value) :
    (st.set_variable n v).iteration_count = st.iteration_count ∧
    (st.set_variable n v).functions = st.functions := by
  cases h : st.call_stack <;> simp [Interp.set_variable, h]

/-- Parameter binding never touches the iteration counter or the function table. -/
theorem bind_params_pres : ∀ (ps : List Param) (vs : List Value) (st : Interp),
    (bind_params st ps vs).iteration_count = st.iteration_count ∧
    (bind_params st ps vs).functions = st.functions := by
  intro ps
  induction ps with
  | nil => intro vs st; simp [bind_params]
  | cons p ps ih =>
      intro vs st
      cases vs with
      | nil => simp [bind_params]
      | cons v vs =>
          rw [bind_params]
          have h1 := set_variable_pres st p.name v
          have h2 := ih vs (st.set_variable p.name v)
          exact ⟨h2.1.trans h1.1, h2.2.trans h1.2⟩

/-- Chaining two counter-preserving steps. -/
theorem countKept_chain {α β : Type} {st st1 : Interp} {v : α} {r : RunRes β}
    (h1 : CountKept st (.ok v st1)) (h2 : CountKept st1 r) : CountKept st r := by
  cases r with
  | ok w st2 => exact ⟨h2.1.trans h1.1, h2.2.trans h1.2⟩
  | err e => trivial
  | fuelOut => trivial

/-- Transport of the loop-free-function-table invariant along function-table equality. -/
theorem loopFree_of_eq {st st1 : Interp} (h : st1.functions = st.functions)
    (hlf : loopFreeFns st.functions) : loopFreeFns st1.functions := by
  rw [h]; exact hlf

/-- The constant condition `1` evaluates to the truthy `Int 1` without touching the state (two fuel steps suffice). -/
theorem eval_const_one (f : Nat) (st : Interp) (h : 2 ≤ f) :
    eval_control_expr_to_value f st (.data (.number (.int 1))) = .ok (.int 1) st := by
  obtain ⟨f1, rfl⟩ : ∃ f1, f = f1 + 2 := ⟨f - 2, by omega⟩
  rw [eval_control_expr_to_value]
  rw [eval_data_expr]
  rfl

/-- The `while (true) {}` loop raises the maximum-iterations error: each iteration increments the single counter by exactly one, and once the counter exceeds the ceiling the check fires.  Fuel `MAX_ITERATIONS + 3 - iteration_count` suffices, which also witnesses that the counter grows by one per iteration. -/
theorem while_true_empty_exceeds :
    ∀ fuel, ∀ st : Interp,
      MAX_ITERATIONS + 3 ≤ fuel + st.iteration_count → 3 ≤ fuel →
      while_loop fuel st whileTrueEmpty = .err .maxIterationsExceeded := by
  intro fuel
  induction fuel with
  | zero => intro st h1 h2; omega
  | succ f ih =>
      intro st h1 h2
      rw [while_loop]
      rw [show whileTrueEmpty.condition = .data (.number (.int 1)) from rfl]
      rw [eval_const_one f st (by omega)]
      simp only [Value.isTruthy]
      rw [if_pos (by simp)]
      by_cases hc : st.iteration_count + 1 > MAX_ITERATIONS
      · rw [show ({ st with iteration_count := st.iteration_count + 1
            } : Interp).check_iteration_limit = .error .maxIterationsExceeded from by
          simp [Interp.check_iteration_limit, hc]]
      · rw [show ({ st with iteration_count := st.iteration_count + 1
            } : Interp).check_iteration_limit = .ok () from by
          simp [Interp.check_iteration_limit]; omega]
        obtain ⟨g, rfl⟩ : ∃ g, f = g + 1 := ⟨f - 1, by omega⟩
        rw [show whileTrueEmpty.body = [] from rfl]
        rw [eval_stmts_early]
        simp only
        exact ih _ (by simp; omega) (by omega)

/-- Wrapping is the identity inside the `i64` range. -/
theorem wrap64_id {n : Int} (h1 : i64Min ≤ n) (h2 : n ≤ i64Max) : wrap64 n = n := by
  simp only [wrap64, i64Min, i64Max] at *
  omega

/-- Statement-level wrapper: `eval_control_stmt` on `while (true) {}` raises the maximum-iterations error. -/
theorem while_true_stmt_exceeds (fuel : Nat) (st : Interp)
    (hcount : st.iteration_count ≤ MAX_ITERATIONS)
    (hfuel : MAX_ITERATIONS + 4 ≤ fuel + st.iteration_count) :
    eval_control_stmt fuel st (.whileStmt whileTrueEmpty)
      = .err .maxIterationsExceeded := by
  obtain ⟨f, rfl⟩ : ∃ f, fuel = f + 1 := ⟨fuel - 1, by omega⟩
  rw [eval_control_stmt]
  rw [show st.check_iteration_limit = .ok () from by
    simp [Interp.check_iteration_limit, Nat.not_lt.mpr hcount]]
  exact while_true_empty_exceeds f st (by omega) (by omega)

/-- A step-1 `for` loop whose range outlasts the governor raises the maximum-iterations error, incrementing the counter once per iteration. -/
theorem for_step_one_exceeds :
    ∀ fuel, ∀ (st : Interp) (var : String) (end_int i : Int),
      MAX_ITERATIONS + 2 ≤ fuel + st.iteration_count → 2 ≤ fuel →
      st.iteration_count ≤ MAX_ITERATIONS →
      0 ≤ i → i + ((MAX_ITERATIONS : Int) + 1 - st.iteration_count) ≤ end_int →
      end_int ≤ i64Max →
      for_loop fuel st var [] 1 end_int i = .err .maxIterationsExceeded := by
  intro fuel
  induction fuel with
  | zero => intro st var end_int i h1 h2 _ _ _ _; omega
  | succ f ih =>
      intro st var end_int i h1 h2 hcount hi hle hmax
      rw [for_loop]
      rw [if_pos (Or.inl ⟨by omega, by omega⟩)]
      simp only [Interp.check_iteration_limit]
      by_cases hc : st.iteration_count + 1 > MAX_ITERATIONS
      · rw [if_pos hc]
      · rw [if_neg hc]
        obtain ⟨g, rfl⟩ : ∃ g, f = g + 1 := ⟨f - 1, by omega⟩
        rw [eval_stmts_early]
        simp only
        rw [wrap64_id (by simp [i64Min]; omega) (by omega)]
        have hpres : (({ st with iteration_count := st.iteration_count + 1
            } : Interp).set_variable var (.int i)).iteration_count
            = st.iteration_count + 1 := by
          cases h : ({ st with iteration_count := st.iteration_count + 1
            } : Interp).call_stack <;> simp [Interp.set_variable, h]
        exact ih _ var end_int (i + 1) (by rw [hpres]; omega) (by omega)
          (by rw [hpres]; omega) (by omega) (by rw [hpres]; push_cast; omega) hmax

/-- Mutual fuel induction: in a state whose function table holds only loop-free bodies, every evaluation form that contains no `while`/`for` loop preserves the iteration counter and the function table whenever it returns `ok`.  In particular a function call itself never increments the counter; only loop iterations do. -/
theorem count_invariance : ∀ fuel : Nat,
    (∀ st stmt, stmtHasLoop stmt = false → loopFreeFns st.functions →
        CountKept st (eval_control_stmt fuel st stmt)) ∧
    (∀ st stmts, stmtsHaveLoop stmts = false → loopFreeFns st.functions →
        CountKept st (eval_stmts_early fuel st stmts)) ∧
    (∀ st e, loopFreeFns st.functions →
        CountKept st (eval_data_expr fuel st e)) ∧
    (∀ st es, loopFreeFns st.functions →
        CountKept st (eval_exprs fuel st es)) ∧
    (∀ st e, loopFreeFns st.functions →
        CountKept st (eval_control_expr_to_value fuel st e)) ∧
    (∀ st call, loopFreeFns st.functions →
        CountKept st (eval_function_call fuel st call)) ∧
    (∀ st stmts, stmtsHaveLoop stmts = false → loopFreeFns st.functions →
        CountKept st (run_body fuel st stmts)) ∧
    (∀ st rstmts, revStmtsHaveLoop rstmts = false → loopFreeFns st.functions →
        CountKept st (eval_reverse_stmts fuel st rstmts)) ∧
    (∀ st stmts, stmtsHaveLoop stmts = false → loopFreeFns st.functions →
        CountKept st (eval_stmts_discard fuel st stmts)) := by
  intro fuel
  induction fuel with
  | zero =>
      refine ⟨?_, ?_, ?_, ?_, ?_, ?_, ?_, ?_, ?_⟩ <;> intro st x <;> intros <;> trivial
  | succ fuel ih =>
      obtain ⟨ihStmt, ihStmts, ihData, ihExprs, ihCtrl, ihCall, ihBody,
        ihRev, ihDisc⟩ := ih
      refine ⟨?_, ?_, ?_, ?_, ?_, ?_, ?_, ?_, ?_⟩
      -- eval_control_stmt
      · intro st stmt hloop hlf
        cases hlim : st.check_iteration_limit with
        | error e =>
            cases stmt with
            | assignment a => rw [eval_control_stmt]; simp only [hlim]; trivial
            | ifStmt i =>
                cases i with
                | mk c tb eb => rw [eval_control_stmt]; simp only [hlim]; trivial
            | whileStmt w => rw [eval_control_stmt]; simp only [hlim]; trivial
            | forStmt f =>
                cases f with
                | mk var range body =>
                    rw [eval_control_stmt]; simp only [hlim]; trivial
            | ret e2 =>
                cases e2 with
                | some expr => rw [eval_control_stmt]; simp only [hlim]; trivial
                | none => rw [eval_control_stmt]; simp only [hlim]; trivial
            | print es => rw [eval_control_stmt]; simp only [hlim]; trivial
            | reverseBlock b =>
                cases b with
                | mk body => rw [eval_control_stmt]; simp only [hlim]; trivial
            | block stmts2 => rw [eval_control_stmt]; simp only [hlim]; trivial
        | ok u =>
            cases u
            cases stmt with
            | assignment a =>
                rw [eval_control_stmt]
                simp only [hlim]
                cases hv : a.value with
                | data e =>
                    simp only [hv]
                    cases hr : eval_data_expr fuel st e with
                    | ok v st1 =>
                        simp only [hr]
                        have h := ihData st e hlf
                        rw [hr] at h
                        exact ⟨(set_variable_pres st1 _ _).1.trans h.1,
                          (set_variable_pres st1 _ _).2.trans h.2⟩
                    | err e0 => simp only [hr]; trivial
                    | fuelOut => simp only [hr]; trivial
                | control e =>
                    simp only [hv]
                    cases hr : eval_control_expr_to_value fuel st e with
                    | ok v st1 =>
                        simp only [hr]
                        have h := ihCtrl st e hlf
                        rw [hr] at h
                        exact ⟨(set_variable_pres st1 _ _).1.trans h.1,
                          (set_variable_pres st1 _ _).2.trans h.2⟩
                    | err e0 => simp only [hr]; trivial
                    | fuelOut => simp only [hr]; trivial
            | ifStmt i =>
                cases i with
                | mk c tb eb =>
                    rw [eval_control_stmt]
                    simp only [hlim]
                    rw [stmtHasLoop.eq_def] at hloop
                    simp only [Bool.or_eq_false_iff] at hloop
                    cases hc : eval_control_expr_to_value fuel st c with
                    | ok cond st1 =>
                        simp only [hc]
                        have h := ihCtrl st c hlf
                        rw [hc] at h
                        cases hct : cond.isTruthy with
                        | true =>
                            rw [if_pos rfl]
                            exact countKept_chain h
                              (ihStmts st1 tb hloop.1 (loopFree_of_eq h.2 hlf))
                        | false =>
                            rw [if_neg (by exact Bool.false_ne_true)]
                            cases eb with
                            | some ebs =>
                                have hebs : stmtsHaveLoop ebs = false := by
                                  simpa using hloop.2
                                exact countKept_chain h
                                  (ihStmts st1 ebs hebs (loopFree_of_eq h.2 hlf))
                            | none => exact ⟨h.1, h.2⟩
                    | err e0 => simp only [hc]; trivial
                    | fuelOut => simp only [hc]; trivial
            | whileStmt w => simp [stmtHasLoop] at hloop
            | forStmt f => simp [stmtHasLoop] at hloop
            | ret e =>
                cases e with
                | some expr =>
                    rw [eval_control_stmt]
                    simp only [hlim]
                    cases hr : eval_data_expr fuel st expr with
                    | ok v st1 =>
                        simp only [hr]
                        have h := ihData st expr hlf
                        rw [hr] at h
                        exact ⟨h.1, h.2⟩
                    | err e0 => simp only [hr]; trivial
                    | fuelOut => simp only [hr]; trivial
                | none =>
                    rw [eval_control_stmt]
                    simp only [hlim]
                    exact ⟨rfl, rfl⟩
            | print es =>
                rw [eval_control_stmt]
                simp only [hlim]
                cases hr : eval_exprs fuel st es with
                | ok vs st1 =>
                    simp only [hr]
                    have h := ihExprs st es hlf
                    rw [hr] at h
                    exact ⟨h.1, h.2⟩
                | err e0 => simp only [hr]; trivial
                | fuelOut => simp only [hr]; trivial
            | reverseBlock b =>
                cases b with
                | mk body =>
                    rw [eval_control_stmt]
                    simp only [hlim]
                    simp only [stmtHasLoop] at hloop
                    cases hr : eval_reverse_stmts fuel st body with
                    | ok u st1 =>
                        cases u
                        simp only [hr]
                        have h := ihRev st body hloop hlf
                        rw [hr] at h
                        exact ⟨h.1, h.2⟩
                    | err e0 => simp only [hr]; trivial
                    | fuelOut => simp only [hr]; trivial
            | block stmts =>
                rw [eval_control_stmt]
                simp only [hlim]
                simp only [stmtHasLoop] at hloop
                exact ihStmts st stmts hloop hlf
      -- eval_stmts_early
      · intro st stmts hloop hlf
        cases stmts with
        | nil => rw [eval_stmts_early]; exact ⟨rfl, rfl⟩
        | cons stmt rest =>
            rw [eval_stmts_early]
            simp only [stmtsHaveLoop, Bool.or_eq_false_iff] at hloop
            cases hr : eval_control_stmt fuel st stmt with
            | ok vOpt st1 =>
                have h := ihStmt st stmt hloop.1 hlf
                rw [hr] at h
                cases vOpt with
                | some v => simp only [hr]; exact ⟨h.1, h.2⟩
                | none =>
                    simp only [hr]
                    exact countKept_chain h
                      (ihStmts st1 rest hloop.2 (loopFree_of_eq h.2 hlf))
            | err e0 => simp only [hr]; trivial
            | fuelOut => simp only [hr]; trivial
      -- eval_data_expr
      · intro st e hlf
        cases e with
        | number num =>
            rw [eval_data_expr]
            cases hfn : Value.fromNumber num with
            | ok v => simp only [hfn]; exact ⟨rfl, rfl⟩
            | error e0 => simp only [hfn]; trivial
        | identifier name =>
            rw [eval_data_expr]
            cases hg : st.get_variable name with
            | ok v => simp only [hg]; exact ⟨rfl, rfl⟩
            | error e0 => simp only [hg]; trivial
        | add left right =>
            rw [eval_data_expr]
            cases hl : eval_data_expr fuel st left with
            | ok lv st1 =>
                simp only [hl]
                have h1 := ihData st left hlf
                rw [hl] at h1
                cases hr : eval_data_expr fuel st1 right with
                | ok rv st2 =>
                    simp only [hr]
                    have h2 := ihData st1 right (loopFree_of_eq h1.2 hlf)
                    rw [hr] at h2
                    cases ha : lv.add rv with
                    | ok v =>
                        simp only [ha]
                        exact ⟨h2.1.trans h1.1, h2.2.trans h1.2⟩
                    | error e0 => simp only [ha]; trivial
                | err e0 => simp only [hr]; trivial
                | fuelOut => simp only [hr]; trivial
            | err e0 => simp only [hl]; trivial
            | fuelOut => simp only [hl]; trivial
        | negate inner =>
            rw [eval_data_expr]
            cases hi : eval_data_expr fuel st inner with
            | ok v st1 =>
                simp only [hi]
                have h := ihData st inner hlf
                rw [hi] at h
                cases hn : v.negate with
                | ok nv => simp only [hn]; exact ⟨h.1, h.2⟩
                | error e0 => simp only [hn]; trivial
            | err e0 => simp only [hi]; trivial
            | fuelOut => simp only [hi]; trivial
        | functionCall call =>
            rw [eval_data_expr]
            exact ihCall st call hlf
        | list elements =>
            rw [eval_data_expr]
            cases hr : eval_exprs fuel st elements with
            | ok vs st1 =>
                simp only [hr]
                have h := ihExprs st elements hlf
                rw [hr] at h
                exact ⟨h.1, h.2⟩
            | err e0 => simp only [hr]; trivial
            | fuelOut => simp only [hr]; trivial
        | tuple elements =>
            rw [eval_data_expr]
            cases hr : eval_exprs fuel st elements with
            | ok vs st1 =>
                simp only [hr]
                have h := ihExprs st elements hlf
                rw [hr] at h
                exact ⟨h.1, h.2⟩
            | err e0 => simp only [hr]; trivial
            | fuelOut => simp only [hr]; trivial
      -- eval_exprs
      · intro st es hlf
        cases es with
        | nil => rw [eval_exprs]; exact ⟨rfl, rfl⟩
        | cons e rest =>
            rw [eval_exprs]
            cases h1 : eval_data_expr fuel st e with
            | ok v st1 =>
                simp only [h1]
                have hh1 := ihData st e hlf
                rw [h1] at hh1
                cases h2 : eval_exprs fuel st1 rest with
                | ok vs st2 =>
                    simp only [h2]
                    have hh2 := ihExprs st1 rest (loopFree_of_eq hh1.2 hlf)
                    rw [h2] at hh2
                    exact ⟨hh2.1.trans hh1.1, hh2.2.trans hh1.2⟩
                | err e0 => simp only [h2]; trivial
                | fuelOut => simp only [h2]; trivial
            | err e0 => simp only [h1]; trivial
            | fuelOut => simp only [h1]; trivial
      -- eval_control_expr_to_value
      · intro st e hlf
        cases e with
        | data d =>
            rw [eval_control_expr_to_value]
            exact ihData st d hlf
        | comparison left op right =>
            rw [eval_control_expr_to_value]
            cases hl : eval_data_expr fuel st left with
            | ok lv st1 =>
                simp only [hl]
                have h1 := ihData st left hlf
                rw [hl] at h1
                cases hr : eval_data_expr fuel st1 right with
                | ok rv st2 =>
                    simp only [hr]
                    have h2 := ihData st1 right (loopFree_of_eq h1.2 hlf)
                    rw [hr] at h2
                    cases op with
                    | eq =>
                        cases hres : lv.eqOp rv with
                        | ok b =>
                            simp only [hres]
                            exact ⟨h2.1.trans h1.1, h2.2.trans h1.2⟩
                        | error e0 => simp only [hres]; trivial
                    | ne =>
                        cases hres : lv.neOp rv with
                        | ok b =>
                            simp only [hres]
                            exact ⟨h2.1.trans h1.1, h2.2.trans h1.2⟩
                        | error e0 => simp only [hres]; trivial
                    | lt =>
                        cases hres : lv.ltOp rv with
                        | ok b =>
                            simp only [hres]
                            exact ⟨h2.1.trans h1.1, h2.2.trans h1.2⟩
                        | error e0 => simp only [hres]; trivial
                    | le =>
                        cases hres : lv.leOp rv with
                        | ok b =>
                            simp only [hres]
                            exact ⟨h2.1.trans h1.1, h2.2.trans h1.2⟩
                        | error e0 => simp only [hres]; trivial
                    | gt =>
                        cases hres : lv.gtOp rv with
                        | ok b =>
                            simp only [hres]
                            exact ⟨h2.1.trans h1.1, h2.2.trans h1.2⟩
                        | error e0 => simp only [hres]; trivial
                    | ge =>
                        cases hres : lv.geOp rv with
                        | ok b =>
                            simp only [hres]
                            exact ⟨h2.1.trans h1.1, h2.2.trans h1.2⟩
                        | error e0 => simp only [hres]; trivial
                | err e0 => simp only [hr]; trivial
                | fuelOut => simp only [hr]; trivial
            | err e0 => simp only [hl]; trivial
            | fuelOut => simp only [hl]; trivial
        | logical left op right =>
            rw [eval_control_expr_to_value]
            cases hl : eval_control_expr_to_value fuel st left with
            | ok lv st1 =>
                simp only [hl]
                have h1 := ihCtrl st left hlf
                rw [hl] at h1
                cases op with
                | and =>
                    cases hlt : lv.isTruthy with
                    | false => rw [if_pos (by simp)]; exact ⟨h1.1, h1.2⟩
                    | true =>
                        rw [if_neg (by simp)]
                        cases hr : eval_control_expr_to_value fuel st1 right with
                        | ok rv st2 =>
                            simp only [hr]
                            have h2 := ihCtrl st1 right (loopFree_of_eq h1.2 hlf)
                            rw [hr] at h2
                            exact ⟨h2.1.trans h1.1, h2.2.trans h1.2⟩
                        | err e0 => simp only [hr]; trivial
                        | fuelOut => simp only [hr]; trivial
                | or =>
                    cases hlt : lv.isTruthy with
                    | true =>
                        rw [if_pos (show (true : Bool) = true from rfl)]
                        exact ⟨h1.1, h1.2⟩
                    | false =>
                        rw [if_neg (show ¬((false : Bool) = true) from by simp)]
                        cases hr : eval_control_expr_to_value fuel st1 right with
                        | ok rv st2 =>
                            simp only [hr]
                            have h2 := ihCtrl st1 right (loopFree_of_eq h1.2 hlf)
                            rw [hr] at h2
                            exact ⟨h2.1.trans h1.1, h2.2.trans h1.2⟩
                        | err e0 => simp only [hr]; trivial
                        | fuelOut => simp only [hr]; trivial
            | err e0 => simp only [hl]; trivial
            | fuelOut => simp only [hl]; trivial
        | not inner =>
            rw [eval_control_expr_to_value]
            cases hi : eval_control_expr_to_value fuel st inner with
            | ok v st1 =>
                simp only [hi]
                have h := ihCtrl st inner hlf
                rw [hi] at h
                exact ⟨h.1, h.2⟩
            | err e0 => simp only [hi]; trivial
            | fuelOut => simp only [hi]; trivial
      -- eval_function_call
      · intro st call hlf
        cases call with
        | mk name args =>
            rw [eval_function_call]
            cases hfind : strFind st.functions name with
            | none => simp only [hfind]; trivial
            | some func =>
                simp only [hfind]
                by_cases harity : func.params.length ≠ args.length
                · rw [if_pos harity]; trivial
                · rw [if_neg harity]
                  cases hargs : eval_exprs fuel st args with
                  | ok arg_values st1 =>
                      simp only [hargs]
                      have h1 := ihExprs st args hlf
                      rw [hargs] at h1
                      have hbody : stmtsHaveLoop func.body = false :=
                        hlf name func hfind
                      have hbp := bind_params_pres func.params arg_values
                        { st1 with call_stack := [] :: st1.call_stack }
                      have hlf3 : loopFreeFns (bind_params
                          { st1 with call_stack := [] :: st1.call_stack }
                          func.params arg_values).functions := by
                        rw [hbp.2]
                        exact loopFree_of_eq h1.2 hlf
                      have h3 := ihBody (bind_params
                          { st1 with call_stack := [] :: st1.call_stack }
                          func.params arg_values) func.body hbody hlf3
                      cases hrb : run_body fuel (bind_params
                          { st1 with call_stack := [] :: st1.call_stack }
                          func.params arg_values) func.body with
                      | ok result st4 =>
                          simp only [hrb]
                          rw [hrb] at h3
                          refine ⟨?_, ?_⟩
                          · exact (h3.1.trans hbp.1).trans h1.1
                          · exact (h3.2.trans hbp.2).trans h1.2
                      | err e0 => simp only [hrb]; trivial
                      | fuelOut => simp only [hrb]; trivial
                  | err e0 => simp only [hargs]; trivial
                  | fuelOut => simp only [hargs]; trivial
      -- run_body
      · intro st stmts hloop hlf
        cases stmts with
        | nil => rw [run_body]; exact ⟨rfl, rfl⟩
        | cons stmt rest =>
            rw [run_body]
            simp only [stmtsHaveLoop, Bool.or_eq_false_iff] at hloop
            cases hr : eval_control_stmt fuel st stmt with
            | ok vOpt st1 =>
                have h := ihStmt st stmt hloop.1 hlf
                rw [hr] at h
                cases vOpt with
                | some v => simp only [hr]; exact ⟨h.1, h.2⟩
                | none =>
                    simp only [hr]
                    exact countKept_chain h
                      (ihBody st1 rest hloop.2 (loopFree_of_eq h.2 hlf))
            | err e0 => simp only [hr]; trivial
            | fuelOut => simp only [hr]; trivial
      -- eval_reverse_stmts
      · intro st rstmts hloop hlf
        cases rstmts with
        | nil => rw [eval_reverse_stmts]; exact ⟨rfl, rfl⟩
        | cons rstmt rest =>
            simp only [revStmtsHaveLoop, Bool.or_eq_false_iff] at hloop
            cases rstmt with
            | addAssign target e =>
                rw [eval_reverse_stmts]
                cases hr : eval_data_expr fuel st e with
                | ok value st1 =>
                    simp only [hr]
                    have h1 := ihData st e hlf
                    rw [hr] at h1
                    cases hg : st1.get_variable target with
                    | ok current =>
                        simp only [hg]
                        cases ha : current.add value with
                        | ok new_value =>
                            simp only [ha]
                            have hsv := set_variable_pres st1 target new_value
                            have h2 := ihRev (st1.set_variable target new_value)
                              rest hloop.2 (loopFree_of_eq (hsv.2.trans h1.2) hlf)
                            exact countKept_chain (v := ())
                              ⟨hsv.1.trans h1.1, hsv.2.trans h1.2⟩ h2
                        | error e0 => simp only [ha]; trivial
                    | error e0 => simp only [hg]; trivial
                | err e0 => simp only [hr]; trivial
                | fuelOut => simp only [hr]; trivial
            | subAssign target e =>
                rw [eval_reverse_stmts]
                cases hr : eval_data_expr fuel st e with
                | ok value st1 =>
                    simp only [hr]
                    have h1 := ihData st e hlf
                    rw [hr] at h1
                    cases hg : st1.get_variable target with
                    | ok current =>
                        simp only [hg]
                        cases hn : value.negate with
                        | ok neg_value =>
                            simp only [hn]
                            cases ha : current.add neg_value with
                            | ok new_value =>
                                simp only [ha]
                                have hsv := set_variable_pres st1 target new_value
                                have h2 := ihRev (st1.set_variable target new_value)
                                  rest hloop.2
                                  (loopFree_of_eq (hsv.2.trans h1.2) hlf)
                                exact countKept_chain (v := ())
                                  ⟨hsv.1.trans h1.1, hsv.2.trans h1.2⟩ h2
                            | error e0 => simp only [ha]; trivial
                        | error e0 => simp only [hn]; trivial
                    | error e0 => simp only [hg]; trivial
                | err e0 => simp only [hr]; trivial
                | fuelOut => simp only [hr]; trivial
            | ifStmt i =>
                cases i with
                | mk c tb eb =>
                    rw [eval_reverse_stmts]
                    have hloop1 := hloop.1
                    rw [revStmtHasLoop.eq_def] at hloop1
                    simp only [Bool.or_eq_false_iff] at hloop1
                    cases hc : eval_control_expr_to_value fuel st c with
                    | ok cond st1 =>
                        simp only [hc]
                        have h1 := ihCtrl st c hlf
                        rw [hc] at h1
                        have hbranch : ∀ br : RunRes Unit,
                            CountKept st1 br →
                            CountKept st (match br with
                              | .ok () st2 => eval_reverse_stmts fuel st2 rest
                              | .err e => .err e
                              | .fuelOut => .fuelOut) := by
                          intro br hbr
                          cases br with
                          | ok u st2 =>
                              cases u
                              have hcomb : CountKept st (RunRes.ok () st2) :=
                                ⟨hbr.1.trans h1.1, hbr.2.trans h1.2⟩
                              have h2 := ihRev st2 rest hloop.2
                                (loopFree_of_eq hcomb.2 hlf)
                              exact countKept_chain (v := ()) hcomb h2
                          | err e0 => trivial
                          | fuelOut => trivial
                        cases hct : cond.isTruthy with
                        | true =>
                            rw [if_pos rfl]
                            exact hbranch _
                              (ihDisc st1 tb hloop1.1 (loopFree_of_eq h1.2 hlf))
                        | false =>
                            rw [if_neg (by exact Bool.false_ne_true)]
                            cases eb with
                            | some ebs =>
                                have hebs : stmtsHaveLoop ebs = false := by
                                  simpa using hloop1.2
                                exact hbranch _
                                  (ihDisc st1 ebs hebs (loopFree_of_eq h1.2 hlf))
                            | none =>
                                exact hbranch (RunRes.ok () st1) ⟨rfl, rfl⟩
                    | err e0 => simp only [hc]; trivial
                    | fuelOut => simp only [hc]; trivial
      -- eval_stmts_discard
      · intro st stmts hloop hlf
        cases stmts with
        | nil => rw [eval_stmts_discard]; exact ⟨rfl, rfl⟩
        | cons stmt rest =>
            rw [eval_stmts_discard]
            simp only [stmtsHaveLoop, Bool.or_eq_false_iff] at hloop
            cases hr : eval_control_stmt fuel st stmt with
            | ok vOpt st1 =>
                simp only [hr]
                have h := ihStmt st stmt hloop.1 hlf
                rw [hr] at h
                exact countKept_chain h
                  (ihDisc st1 rest hloop.2 (loopFree_of_eq h.2 hlf))
            | err e0 => simp only [hr]; trivial
            | fuelOut => simp only [hr]; trivial

/-- C5: the iteration governor.  `MAX_ITERATIONS` is exactly 1,000,000; a
`while (true) {}` loop (and a step-1 `for` loop over a long enough range)
does not run forever: the single counter increments once per `while`/`for`
iteration and, once it exceeds the ceiling, the interpreter raises the
maximum-iterations error; and a function call whose table holds only
loop-free bodies returns with the counter unchanged — calls themselves never
increment it. -/
theorem iteration_governor :
    MAX_ITERATIONS = 1000000 ∧
    (∀ fuel st, MAX_ITERATIONS + 3 ≤ fuel + st.iteration_count → 3 ≤ fuel →
      while_loop fuel st whileTrueEmpty = .err .maxIterationsExceeded) ∧
    (∀ fuel st, st.iteration_count ≤ MAX_ITERATIONS →
      MAX_ITERATIONS + 4 ≤ fuel + st.iteration_count →
      eval_control_stmt fuel st (.whileStmt whileTrueEmpty)
        = .err .maxIterationsExceeded) ∧
    (∀ fuel st var end_int i, MAX_ITERATIONS + 2 ≤ fuel + st.iteration_count →
      2 ≤ fuel → st.iteration_count ≤ MAX_ITERATIONS → 0 ≤ i →
      i + ((MAX_ITERATIONS : Int) + 1 - st.iteration_count) ≤ end_int →
      end_int ≤ i64Max →
      for_loop fuel st var [] 1 end_int i = .err .maxIterationsExceeded) ∧
    (∀ fuel st call, loopFreeFns st.functions →
      ∀ v st1, eval_function_call fuel st call = .ok v st1 →
        st1.iteration_count = st.iteration_count) := by
  refine ⟨rfl, while_true_empty_exceeds, ?_, ?_, ?_⟩
  · intro fuel st h1 h2
    exact while_true_stmt_exceeds fuel st h1 h2
  · intro fuel st var end_int i h1 h2 h3 h4 h5 h6
    exact for_step_one_exceeds fuel st var end_int i h1 h2 h3 h4 h5 h6
  · intro fuel st call hlf v st1 hrun
    have h := (count_invariance fuel).2.2.2.2.2.1 st call hlf
    rw [hrun] at h
    exact h.1

/-- C5 witness: from a fresh interpreter, `while (true) {}` errors with the
given fuel at both the loop and the statement level, the long step-1 `for`
loop errors, and the loop-free call `seven()` returns with the counter
unchanged. -/
theorem iteration_governor_witness :
    while_loop 1000003 Interp.new whileTrueEmpty = .err .maxIterationsExceeded ∧
    eval_control_stmt 1000004 Interp.new (.whileStmt whileTrueEmpty)
      = .err .maxIterationsExceeded ∧
    for_loop 1000002 Interp.new "i" [] 1 4611686018427387904 0
      = .err .maxIterationsExceeded ∧
    stCall.iteration_count = stCall.iteration_count := by
  refine ⟨?_, ?_, ?_, ?_⟩
  · exact iteration_governor.2.1 1000003 Interp.new (by decide) (by decide)
  · exact iteration_governor.2.2.1 1000004 Interp.new (by decide) (by decide)
  · exact iteration_governor.2.2.2.1 1000002 Interp.new "i" 4611686018427387904 0
      (by decide) (by decide) (by decide) (by decide) (by decide) (by decide)
  · refine iteration_governor.2.2.2.2 10 stCall callSeven ?_ (.int 7) stCall ?_
    · intro name f h
      simp only [stCall, strFind] at h
      by_cases hn : ("seven" : String) = name
      · rw [if_pos hn] at h
        cases h
        simp [fnSeven, stmtsHaveLoop, stmtHasLoop]
      · rw [if_neg hn] at h
        simp [strFind] at h
    · rfl


end Jtv
